import Mathlib

/-!
Verification development for the pixel-art icon editor core
(`yoto_app/pixel_art_editor.py`): color codec, pixel grid, flood fill,
raster conversion and the undo/redo history stack.

Python strings are modelled as `List Char`; a pixel cell is an optional
color string (`None` = transparent).  Machine integers are modelled as
`Int`/`Nat` (Python integers are unbounded, so no wrapping is needed).
Python `float` parsing of decimal literals is modelled exactly over `ℚ`.
Float overflow is modelled exactly: a decimal magnitude at or above
`2 ^ 1024 - 2 ^ 970` rounds to `inf`, so `int(float(p))` raises
`OverflowError` there (failure in the model), and the int-to-float
conversion inside `(...) ** 0.5` in `_color_distance` raises at the same
threshold, landing in its `except` arm (255 in the model).  Below the
threshold, decimal-to-binary rounding of IEEE doubles is not modelled,
and `int(x ** 0.5)` is modelled as `Nat.sqrt`, which agrees with the
truncated double square root on every sum two hex-form decodes can
produce; theorems whose truth depends on concrete distance values
therefore restrict the participating colors to hex forms, where no float
arithmetic occurs at all.  The string primitives (`str.strip`,
`int(·, 16)`, `re` classes) are modelled on their ASCII fragment; Python
additionally strips unicode whitespace and accepts unicode decimal
digits, so theorems about raw input strings carry an ASCII hypothesis.
-/

/-- A Python string, modelled as its list of characters. -/
abbrev PyStr := List Char

/-- A pixel cell: `none` is Python `None` (transparent), `some s` a color string. -/
abbrev Cell := Option PyStr

/-- The pixel grid `self.pixels`: a list of rows of cells. -/
abbrev Grid := List (List Cell)

/-- A coordinate `(x, y)` as used by `_flood_fill` (Python ints). -/
abbrev Coord := Int × Int

/-- The ASCII characters for which Python's `str.isspace` holds — exactly
the characters below `\x80` stripped by `str.strip`, skipped by `int(·, 16)`
and matched by the `re` class `\s`.  Python also treats unicode whitespace
(`\x85`, `\xa0`, …) this way; that part is outside this ASCII model, so
theorems about raw input strings carry an ASCII hypothesis. -/
def isPyWs (c : Char) : Bool :=
  c = ' ' || c = '\t' || c = '\n' || c = '\r' || c = '\x0b' || c = '\x0c'
    || c = '\x1c' || c = '\x1d' || c = '\x1e' || c = '\x1f'

/-- The ASCII whitespace skipped by `int(·, base)` around its digits: unlike
`str.strip`, CPython's int parser does not skip `\x1c`–`\x1f` (verified:
`int('\x1cf', 16)` raises `ValueError` while `'\x1c#'.strip()` strips).
Python also skips unicode whitespace here (`int('\xa0f', 16) = 15`); as with
`isPyWs`, that is outside this ASCII model and theorems about raw input
strings carry an ASCII or hex-form hypothesis. -/
def isIntWs (c : Char) : Bool :=
  c = ' ' || c = '\t' || c = '\n' || c = '\r' || c = '\x0b' || c = '\x0c'

/-- Python `str.strip()`: drop leading and trailing whitespace (ASCII
fragment, see `isPyWs`). -/
def pyStrip (s : PyStr) : PyStr :=
  ((s.dropWhile isPyWs).reverse.dropWhile isPyWs).reverse

/-- Python `s.lower().startswith('rgba')`. -/
def startsWithRgba (s : PyStr) : Bool :=
  (s.map Char.toLower).take 4 = ['r', 'g', 'b', 'a']

/-- Value of a run of decimal digit characters. -/
def digitsVal (ds : PyStr) : ℕ :=
  ds.foldl (fun a c => 10 * a + (c.toNat - 48)) 0

/-- Scanner for `re.findall(r"[0-9]*\.?[0-9]+", s)`.  The fuel argument
(initially the string length, consumed once per step while the string
shrinks by at least one character) only serves Lean's termination checker
and is never exhausted. -/
def findNumsAux : ℕ → PyStr → List PyStr
  | 0, _ => []
  | _, [] => []
  | fuel + 1, c :: rest =>
    let d1 := (c :: rest).takeWhile Char.isDigit
    let r1 := (c :: rest).dropWhile Char.isDigit
    match r1 with
    | '.' :: r2 =>
      let d2 := r2.takeWhile Char.isDigit
      if d2.isEmpty then
        if d1.isEmpty then findNumsAux fuel rest else d1 :: findNumsAux fuel r1
      else (d1 ++ '.' :: d2) :: findNumsAux fuel (r2.dropWhile Char.isDigit)
    | _ => if d1.isEmpty then findNumsAux fuel rest else d1 :: findNumsAux fuel r1

/-- `re.findall(r"[0-9]*\.?[0-9]+", s)`: the maximal number tokens of `s`
(digits, an optional dot, digits ending in at least one digit). -/
def findNums (s : PyStr) : List PyStr := findNumsAux s.length s

/-- Value of a token produced by `findNums` (digits with an optional dot),
as an exact rational. -/
def tokenVal (t : PyStr) : ℚ :=
  let ip := t.takeWhile (fun c => c ≠ '.')
  let fp := (t.dropWhile (fun c => c ≠ '.')).drop 1
  (digitsVal ip : ℚ) + (digitsVal fp : ℚ) / ((10 : ℚ) ^ fp.length)

/-- Python `int(...)` applied to a float value: truncation toward zero. -/
def pyTrunc (q : ℚ) : ℤ :=
  if q < 0 then -(⌊-q⌋) else ⌊q⌋

/-- Does every underscore in `s` sit between two digits?  (Python numeric
literal rule; underscores are then ignored.) -/
def underscoresOk : PyStr → Bool
  | [] => true
  | '_' :: _ => false
  | [_] => true
  | c₁ :: '_' :: rest =>
    match rest with
    | [] => false
    | c₂ :: _ => c₁.isDigit && c₂.isDigit && underscoresOk rest
  | _ :: rest => underscoresOk rest

/-- Parse an unsigned decimal mantissa: `digits [. digits]` or `. digits`,
returning its value and the remaining characters. -/
def parseMantissa (s : PyStr) : Option (ℚ × PyStr) :=
  let d1 := s.takeWhile Char.isDigit
  let r1 := s.dropWhile Char.isDigit
  match r1 with
  | '.' :: r2 =>
    let d2 := r2.takeWhile Char.isDigit
    let r3 := r2.dropWhile Char.isDigit
    if d1.isEmpty && d2.isEmpty then none
    else some ((digitsVal d1 : ℚ) + (digitsVal d2 : ℚ) / ((10 : ℚ) ^ d2.length), r3)
  | _ => if d1.isEmpty then none else some ((digitsVal d1 : ℚ), r1)

/-- Parse an optional exponent part `("e"|"E") [sign] digits`; must consume
the whole remainder. -/
def parseExponent (s : PyStr) : Option ℤ :=
  match s with
  | [] => some 0
  | e :: rest =>
    if e = 'e' || e = 'E' then
      let (sgn, ds) : ℤ × PyStr :=
        match rest with
        | '+' :: r => (1, r)
        | '-' :: r => (-1, r)
        | r => (1, r)
      if ds.isEmpty || !(ds.all Char.isDigit) then none
      else some (sgn * (digitsVal ds : ℤ))
    else none

/-- Python `float(s)` on a part with no whitespace: optional sign, decimal
mantissa with underscores between digits, optional exponent.  `inf`/`nan`
words are not modelled (their only consumer, `int(...)`, raises on them,
which lands in the same fallback as a parse failure). -/
def pyFloat (s : PyStr) : Option ℚ :=
  if !underscoresOk s then none
  else
    let s := s.filter (fun c => c ≠ '_')
    let (sgn, body) : ℚ × PyStr :=
      match s with
      | '+' :: r => (1, r)
      | '-' :: r => (-1, r)
      | r => (1, r)
    match parseMantissa body with
    | none => none
    | some (m, rest) =>
      match parseExponent rest with
      | none => none
      | some e => some (sgn * m * (10 : ℚ) ^ e)

/-- The least magnitude that `float(...)` rounds to `inf`: the round-half-even
midpoint `2 ^ 1024 - 2 ^ 970` above the largest finite double
`2 ^ 1024 - 2 ^ 971`.  `int` raises `OverflowError` on the resulting `inf`.
Written as a decimal literal so that it evaluates without deep recursion. -/
def floatInfThresholdZ : ℤ := 179769313486231580793728971405303415079934132710037826936173778980444968292764750946649017977587207096330286416692887910946555547851940402630657488671505820681908902000708383676273854845817711531764475730270069855571366959622842914819860834936475292719074168444365510704342711559699508093042880177904174497792

/-- The literal above is `2 ^ 1024 - 2 ^ 970`. -/
lemma floatInfThresholdZ_eq : floatInfThresholdZ = 2 ^ 1024 - 2 ^ 970 := by
  norm_num [floatInfThresholdZ]

/-- Python `int(float(p))` for a split part: parse as float, truncate toward
zero; a magnitude at or above the double-overflow threshold parses to `±inf`
and makes `int` raise `OverflowError` (failure in the model).  Below the
threshold the decimal value is taken exactly over `ℚ`; the double rounding of
`float(p)` is not modelled, so theorems about concrete decoded or distance
values restrict their colors to hex forms, which never reach this parser. -/
def pyIntFloat (p : PyStr) : Option ℤ :=
  (pyFloat p).bind (fun q =>
    if (floatInfThresholdZ : ℚ) ≤ |q| then none else some (pyTrunc q))

/-- Scanner for `[p for p in re.split(r'[,\s]+', s) if p]`; the fuel
argument (initially the string length) only serves termination. -/
def pySplitAux : ℕ → PyStr → List PyStr
  | 0, _ => []
  | _, [] => []
  | fuel + 1, c :: rest =>
    if isPyWs c || c = ',' then pySplitAux fuel rest
    else
      (c :: rest).takeWhile (fun d => !(isPyWs d || d = ','))
        :: pySplitAux fuel ((c :: rest).dropWhile (fun d => !(isPyWs d || d = ',')))

/-- `[p for p in re.split(r'[,\s]+', s) if p]`: maximal runs of characters
that are neither commas nor whitespace. -/
def pySplitParts (s : PyStr) : List PyStr := pySplitAux s.length s

/-- The ASCII hexadecimal digit characters accepted by `int(c, 16)` and their
values.  Python also accepts unicode decimal digits (category `Nd`) for the
digits `0`–`9`; that part is outside this ASCII model, so theorems about raw
input strings carry an ASCII hypothesis. -/
def hexDigits : List (Char × ℕ) :=
  [('0', 0), ('1', 1), ('2', 2), ('3', 3), ('4', 4), ('5', 5), ('6', 6), ('7', 7),
   ('8', 8), ('9', 9), ('a', 10), ('b', 11), ('c', 12), ('d', 13), ('e', 14), ('f', 15),
   ('A', 10), ('B', 11), ('C', 12), ('D', 13), ('E', 14), ('F', 15)]

/-- Value of a hexadecimal digit character, as accepted by `int(c, 16)`. -/
def hexDigitVal (c : Char) : Option ℕ :=
  (hexDigits.find? (fun p => p.1 = c)).map (fun p => p.2)

/-- Python `int(t, 16)` on a two-character string `t = c₁c₂`: two hex digits,
or one hex digit padded by int-parser whitespace (see `isIntWs`), or a
sign followed by a hex digit (all other two-character ASCII combinations
raise `ValueError`). -/
def hexPairVal (c₁ c₂ : Char) : Option ℤ :=
  match hexDigitVal c₁, hexDigitVal c₂ with
  | some v₁, some v₂ => some (16 * v₁ + v₂)
  | _, _ =>
    if isIntWs c₁ then (hexDigitVal c₂).map (fun v => (v : ℤ))
    else if isIntWs c₂ then (hexDigitVal c₁).map (fun v => (v : ℤ))
    else if c₁ = '+' then (hexDigitVal c₂).map (fun v => (v : ℤ))
    else if c₁ = '-' then (hexDigitVal c₂).map (fun v => -(v : ℤ))
    else none

/-- `int(float(t))` for a `findall` number token (nonnegative digits with an
optional dot): exact truncation below the double-overflow threshold; at or
above it the token parses to `inf` and `int` raises `OverflowError`
(failure in the model). -/
def rgbaTok (t : PyStr) : Option ℤ :=
  if (floatInfThresholdZ : ℚ) ≤ tokenVal t then none else some (pyTrunc (tokenVal t))

/-- The `rgba(...)` branch of `_hex_to_rgba`, entered when at least three
number tokens were found; any `OverflowError` from `int(float(...))` is
caught by the branch's `except` and yields opaque black.  (In the alpha ≤ 1
case `float(nums[3]) * 255` is at most 255 and cannot overflow.) -/
def rgbaBranch (nums : List PyStr) (alpha : ℤ) : ℤ × ℤ × ℤ × ℤ :=
  match rgbaTok (nums.getD 0 []), rgbaTok (nums.getD 1 []), rgbaTok (nums.getD 2 []) with
  | some r, some g, some b =>
    if 3 < nums.length then
      if tokenVal (nums.getD 3 []) ≤ 1 then
        (r, g, b, pyTrunc (tokenVal (nums.getD 3 []) * 255))
      else
        match rgbaTok (nums.getD 3 []) with
        | some a => (r, g, b, a)
        | none => (0, 0, 0, alpha)
    else (r, g, b, alpha)
  | _, _, _ => (0, 0, 0, alpha)

/-- The comma/space-separated branch of `_hex_to_rgba`; any `int(float(p))`
failure lands in the opaque-black fallback. -/
def commaBranch (parts : List PyStr) (alpha : ℤ) : ℤ × ℤ × ℤ × ℤ :=
  match parts with
  | p₀ :: p₁ :: p₂ :: rest =>
    match pyIntFloat p₀, pyIntFloat p₁, pyIntFloat p₂ with
    | some r, some g, some b =>
      match rest with
      | [] => (r, g, b, alpha)
      | p₃ :: _ =>
        match pyIntFloat p₃ with
        | some a => (r, g, b, a)
        | none => (0, 0, 0, alpha)
    | _, _, _ => (0, 0, 0, alpha)
  | _ => (0, 0, 0, alpha)

/-- The hex-length branches of `_hex_to_rgba` applied to the string after
the optional `#` was stripped, falling through to the comma/space branch
and finally to opaque black. -/
def hexCore (s₁ : PyStr) (alpha : ℤ) : ℤ × ℤ × ℤ × ℤ :=
  match s₁ with
  | [c₁, c₂, c₃] =>
    match hexPairVal c₁ c₁, hexPairVal c₂ c₂, hexPairVal c₃ c₃ with
    | some r, some g, some b => (r, g, b, alpha)
    | _, _, _ => (0, 0, 0, alpha)
  | [c₁, c₂, c₃, c₄] =>
    match hexPairVal c₁ c₁, hexPairVal c₂ c₂, hexPairVal c₃ c₃, hexPairVal c₄ c₄ with
    | some r, some g, some b, some a => (r, g, b, a)
    | _, _, _, _ => (0, 0, 0, alpha)
  | [c₁, c₂, c₃, c₄, c₅, c₆] =>
    match hexPairVal c₁ c₂, hexPairVal c₃ c₄, hexPairVal c₅ c₆ with
    | some r, some g, some b => (r, g, b, alpha)
    | _, _, _ => (0, 0, 0, alpha)
  | [c₁, c₂, c₃, c₄, c₅, c₆, c₇, c₈] =>
    match hexPairVal c₁ c₂, hexPairVal c₃ c₄, hexPairVal c₅ c₆, hexPairVal c₇ c₈ with
    | some r, some g, some b, some a => (r, g, b, a)
    | _, _, _, _ => (0, 0, 0, alpha)
  | _ => commaBranch (pySplitParts s₁) alpha

/-- `PixelArtEditor._hex_to_rgba(hex_color, alpha=255)`: convert a hex color
(or simple rgba string) to an `(R, G, B, A)` tuple, falling back to opaque
black on parse failure. -/
def hex_to_rgba (hexColor : Cell) (alpha : ℤ := 255) : ℤ × ℤ × ℤ × ℤ :=
  match hexColor with
  | none => (0, 0, 0, alpha)
  | some s₀ =>
    if s₀.isEmpty then (0, 0, 0, alpha)
    else
      let s := pyStrip s₀
      if startsWithRgba s && 3 ≤ (findNums s).length then
        rgbaBranch (findNums s) alpha
      else
        let s₁ := if s.head? = some '#' then s.tail else s
        hexCore s₁ alpha

/-- The color forms enumerated by the spec sentence (`#RGB`, `#RRGGBB`,
`#RRGGBBAA`, `rgba(...)`, comma/space-separated numbers), as stated.
Modelled from the spec: used only to exhibit that the enumeration misses
forms the decoder accepts. -/
def specParseableB (s : PyStr) : Bool :=
  (s.head? = some '#' && (s.length = 4 || s.length = 7 || s.length = 9)
      && s.tail.all (fun c => (hexDigitVal c).isSome))
  || startsWithRgba s
  || (3 ≤ (pySplitParts s).length && (pySplitParts s).all (fun p => (pyIntFloat p).isSome))

/-- Do the hex-length branches of the decoder accept `s₁` (the string after
optional `#` stripping)?  All the required `int(..., 16)` calls must succeed. -/
def hexFormB (s₁ : PyStr) : Bool :=
  match s₁ with
  | [c₁, c₂, c₃] =>
    (hexPairVal c₁ c₁).isSome && (hexPairVal c₂ c₂).isSome && (hexPairVal c₃ c₃).isSome
  | [c₁, c₂, c₃, c₄] =>
    (hexPairVal c₁ c₁).isSome && (hexPairVal c₂ c₂).isSome && (hexPairVal c₃ c₃).isSome
      && (hexPairVal c₄ c₄).isSome
  | [c₁, c₂, c₃, c₄, c₅, c₆] =>
    (hexPairVal c₁ c₂).isSome && (hexPairVal c₃ c₄).isSome && (hexPairVal c₅ c₆).isSome
  | [c₁, c₂, c₃, c₄, c₅, c₆, c₇, c₈] =>
    (hexPairVal c₁ c₂).isSome && (hexPairVal c₃ c₄).isSome && (hexPairVal c₅ c₆).isSome
      && (hexPairVal c₇ c₈).isSome
  | _ => false

/-- Does the comma/space branch accept this part list?  At least three
parts, the first three numeric, and the fourth numeric when present. -/
def commaPartsOk (parts : List PyStr) : Bool :=
  match parts with
  | p₀ :: p₁ :: p₂ :: rest =>
    (pyIntFloat p₀).isSome && (pyIntFloat p₁).isSome && (pyIntFloat p₂).isSome &&
      (match rest with
       | [] => true
       | p₃ :: _ => (pyIntFloat p₃).isSome)
  | _ => false

/-- Does the comma/space branch accept `s₁`? -/
def commaFormB (s₁ : PyStr) : Bool := commaPartsOk (pySplitParts s₁)

/-- The decoder's branch acceptance conditions: an rgba-prefixed string
with at least three number tokens, or (after optional `#` stripping) a
3/4/6/8-character hex form, or a comma/space-separated numeric form. -/
def parseableColorB (s₀ : PyStr) : Bool :=
  if s₀.isEmpty then false
  else
    let s := pyStrip s₀
    (startsWithRgba s && 3 ≤ (findNums s).length) ||
      (let s₁ := if s.head? = some '#' then s.tail else s
       hexFormB s₁ || commaFormB s₁)

/-- Is the string pure ASCII?  On ASCII input the modelled `str.strip`,
`int(·, 16)` and `re` classes agree exactly with Python's unicode-aware
versions. -/
def asciiStrB (s : PyStr) : Bool := s.all (fun c => c.toNat < 128)

/-- Colors on which the distance model is exact: `None`, the empty string
(both sides of the comparison return before any decoding), or a hex form —
after stripping ASCII whitespace and an optional `#`, one of the decoder's
3/4/6/8-character shapes with every `int(·, 16)` call succeeding.  Hex-form
decoding involves no float arithmetic, only exact `int` operations that the
model reproduces verbatim. -/
def hexCellB (c : Cell) : Bool :=
  match c with
  | none => true
  | some s =>
    s.isEmpty ||
      hexFormB (if (pyStrip s).head? = some '#' then (pyStrip s).tail else pyStrip s)

/-- `PixelArtEditor._color_distance(c1, c2)`: 0 for two `None`s, 255 when
exactly one side is `None`, otherwise the truncated Euclidean distance of
the decoded RGB components (alpha ignored).  The squared-difference sum is
exact Python `int` arithmetic; `(...) ** 0.5` first converts it to a double,
which raises `OverflowError` at or above `2 ^ 1024 - 2 ^ 970`, landing in
the `except` arm (255).  Below the threshold `Nat.sqrt` models
`int(float(s) ** 0.5)`; the two agree on every sum two hex-form decodes can
produce (at most `3 * 270 ^ 2`). -/
def color_distance (c₁ c₂ : Cell) : ℕ :=
  match c₁, c₂ with
  | none, none => 0
  | none, some _ => 255
  | some _, none => 255
  | some a, some b =>
    let (r₁, g₁, b₁, _) := hex_to_rgba (some a) 255
    let (r₂, g₂, b₂, _) := hex_to_rgba (some b) 255
    let s := (r₁ - r₂) ^ 2 + (g₁ - g₂) ^ 2 + (b₁ - b₂) ^ 2
    if floatInfThresholdZ ≤ s then 255 else Nat.sqrt s.toNat

/-- Read cell `pixels[y][x]` (Python ints, guarded): `none` models an
`IndexError`.  `_flood_fill` only reads after its non-negativity check, so
Python's negative-index wraparound is never exercised. -/
def cellAt (g : Grid) (x y : ℤ) : Option Cell :=
  if 0 ≤ x ∧ 0 ≤ y then (g[y.toNat]?).bind (fun row => row[x.toNat]?) else none

/-- Write `pixels[y][x] = v` (only ever executed after a successful read,
so the out-of-range no-op branches are dead). -/
def setCell (g : Grid) (x y : ℤ) (v : Cell) : Grid :=
  if 0 ≤ x ∧ 0 ≤ y then
    match g.get? y.toNat with
    | some row => g.set y.toNat (row.set x.toNat v)
    | none => g
  else g

/-- The stack loop of `_flood_fill`, with explicit fuel: pop a coordinate,
skip it if visited, mark it visited, discard it if out of bounds, read the
cell (`IndexError` discards it too), and on a tolerance match write the
replacement color and push the four neighbors.  The head of the list is the
top of the Python stack (`list.pop()` pops the end, `append` pushes it). -/
def floodLoopF (n : ℕ) (target repl : Cell) (tol : ℤ) :
    ℕ → Grid → List Coord → Finset Coord → Option Grid
  | _, g, [], _ => some g
  | 0, _, _ :: _, _ => none
  | fuel + 1, g, (x, y) :: rest, visited =>
    if (x, y) ∈ visited then floodLoopF n target repl tol fuel g rest visited
    else
      let vis' := insert (x, y) visited
      if x < 0 ∨ y < 0 ∨ (n : ℤ) ≤ x ∨ (n : ℤ) ≤ y then
        floodLoopF n target repl tol fuel g rest vis'
      else
        match cellAt g x y with
        | none => floodLoopF n target repl tol fuel g rest vis'
        | some current =>
          if (color_distance current target : ℤ) ≤ tol then
            floodLoopF n target repl tol fuel (setCell g x y repl)
              ((x, y - 1) :: (x, y + 1) :: (x - 1, y) :: (x + 1, y) :: rest) vis'
          else floodLoopF n target repl tol fuel g rest vis'

/-- All coordinates the loop can ever visit: the seed plus the box one cell
around the grid (every pushed coordinate neighbors an in-bounds cell). -/
def floodBox (n : ℕ) (seed : Coord) : Finset Coord :=
  insert seed (Finset.Icc (-1 : ℤ) (n : ℤ) ×ˢ Finset.Icc (-1 : ℤ) (n : ℤ))

/-- Sufficient fuel for `floodLoopF`: the measure
`4 * (unvisited box coordinates) + stack length` strictly decreases each
step, and starts at this value. -/
def floodFillFuel (n : ℕ) (seed : Coord) : ℕ := 4 * (floodBox n seed).card + 1

/-- `'' -> None` normalization applied by `_flood_fill` to its target and
replacement arguments. -/
def normColor (c : Cell) : Cell := if c = some [] then none else c

/-- `if tolerance < 0: tolerance = 0`. -/
def clampTol (t : ℤ) : ℤ := if t < 0 then 0 else t

/-- `PixelArtEditor._flood_fill(sx, sy, target_color, replacement_color,
tolerance)` acting on a grid with `self.size = size`. -/
def flood_fill (pixels : Grid) (size : ℕ) (sx sy : ℤ)
    (targetColor replacementColor : Cell) (tolerance : ℤ) : Grid :=
  let tol := clampTol tolerance
  let repl := normColor replacementColor
  let target := normColor targetColor
  if repl = target then pixels
  else
    (floodLoopF size target repl tol (floodFillFuel size (sx, sy))
      pixels [(sx, sy)] ∅).getD pixels

/-- Is coordinate `p` strictly inside the `size × size` bounds? -/
def inBoundsB (n : ℕ) (p : Coord) : Bool :=
  decide (0 ≤ p.1) && decide (p.1 < (n : ℤ)) && decide (0 ≤ p.2) && decide (p.2 < (n : ℤ))

/-- Does the cell at `p` exist and match `target` within `tol` (the flood
fill predicate, evaluated on the original grid)? -/
def matchesB (g : Grid) (n : ℕ) (target : Cell) (tol : ℤ) (p : Coord) : Bool :=
  inBoundsB n p &&
    match cellAt g p.1 p.2 with
    | some c => decide ((color_distance c target : ℤ) ≤ tol)
    | none => false

/-- 4-connected (von Neumann) adjacency. -/
def adjStep (p q : Coord) : Prop :=
  q = (p.1 + 1, p.2) ∨ q = (p.1 - 1, p.2) ∨ q = (p.1, p.2 + 1) ∨ q = (p.1, p.2 - 1)

/-- `p` is reachable from `s` through a 4-connected path of cells that all
match `target` within `tol` in grid `g` (including both endpoints). -/
def reachesFrom (g : Grid) (n : ℕ) (target : Cell) (tol : ℤ) (s p : Coord) : Prop :=
  matchesB g n target tol p = true ∧
    Relation.ReflTransGen
      (fun a b => matchesB g n target tol a = true ∧ matchesB g n target tol b = true ∧ adjStep a b)
      s p

/-- Clamp a channel to a byte, as PIL's `putpixel` stores it. -/
def clamp8 (v : ℤ) : ℤ := if v < 0 then 0 else if 255 < v then 255 else v

/-- An RGBA bitmap, as rows (`y`) of `(r, g, b, a)` byte quadruples. -/
abbrev Img := List (List (ℤ × ℤ × ℤ × ℤ))

/-- The per-cell RGBA value written by `_pixels_to_image`: `None` becomes
fully transparent, a string is decoded with `_hex_to_rgba` (total in this
model, so its `except` arm is dead). -/
def cellRGBA (c : Cell) : ℤ × ℤ × ℤ × ℤ :=
  match c with
  | none => (0, 0, 0, 0)
  | some s =>
    let (r, g, b, a) := hex_to_rgba (some s) 255
    (clamp8 r, clamp8 g, clamp8 b, clamp8 a)

/-- `PixelArtEditor._pixels_to_image(pixels)`: an RGBA image sized
`w × h` with `h = len(pixels)`, `w = max(len(row))`; cells beyond a short
row keep the `(255, 255, 255, 0)` background. -/
def pixels_to_image (pixels : Grid) : Img :=
  let w := (pixels.map List.length).foldr max 0
  pixels.map (fun row =>
    (List.range w).map (fun x =>
      match row.get? x with
      | some c => cellRGBA c
      | none => (255, 255, 255, 0)))

/-- Uppercase hexadecimal digit for `d < 16`. -/
def hexUpChar (d : ℕ) : Char := if d < 10 then Char.ofNat (48 + d) else Char.ofNat (55 + d)

/-- Python `f"{v:02X}"` for a byte value. -/
def hx2 (v : ℤ) : PyStr := [hexUpChar (v.toNat / 16 % 16), hexUpChar (v.toNat % 16)]

/-- `f"#{r:02X}{g:02X}{b:02X}"`. -/
def hexStr6 (r g b : ℤ) : PyStr := '#' :: (hx2 r ++ hx2 g ++ hx2 b)

/-- `f"#{r:02X}{g:02X}{b:02X}{a:02X}"`. -/
def hexStr8 (r g b a : ℤ) : PyStr := '#' :: (hx2 r ++ hx2 g ++ hx2 b ++ hx2 a)

/-- The per-pixel quantization of `_image_to_pixels`: alpha 0 becomes
`None`, alpha 255 an opaque 6-digit hex, anything else an 8-digit hex. -/
def quantizePixel (p : ℤ × ℤ × ℤ × ℤ) : Cell :=
  let (r, g, b, a) := p
  if a = 0 then none else if a = 255 then some (hexStr6 r g b) else some (hexStr8 r g b a)

/-- `img.getpixel((x, y))` (always in range where used). -/
def getPx (img : Img) (x y : ℕ) : ℤ × ℤ × ℤ × ℤ :=
  (((img.get? y).bind (fun row => row.get? x)).getD (0, 0, 0, 0))

/-- `PixelArtEditor._image_to_pixels(img)` in the case the image is already
`size × size`: the resize branch (PIL LANCZOS resampling, an external
collaborator excluded by the spec) is not entered and is not modelled. -/
def image_to_pixels (img : Img) (size : ℕ) : Grid :=
  (List.range size).map (fun y =>
    (List.range size).map (fun x => quantizePixel (getPx img x y)))

/-- The re-encoding of decoded components named by the spec: the two hex
formatting branches of `_image_to_pixels` (6-digit when alpha is 255,
8-digit otherwise). -/
def encodeRGBA (r g b a : ℤ) : PyStr :=
  if a = 255 then hexStr6 r g b else hexStr8 r g b a

/-- The editor's history state: `self._undo_stack`, `self._redo_stack`
and the live grid `self.pixels`.  Python's `copy.deepcopy` snapshots are
value copies here. -/
structure EditorHistory where
  undoStack : List Grid
  redoStack : List Grid
  pixels : Grid
  deriving Repr, DecidableEq

/-- `PixelArtEditor._push_undo()`: append a snapshot of the grid, drop the
oldest entry if the stack exceeds 50, clear the redo stack. -/
def push_undo (s : EditorHistory) : EditorHistory :=
  let u := s.undoStack ++ [s.pixels]
  { undoStack := if 50 < u.length then u.tail else u
    redoStack := []
    pixels := s.pixels }

/-- `PixelArtEditor.on_undo(e)`: no-op on an empty undo stack, otherwise
push the live grid onto redo and restore the most recent snapshot. -/
def on_undo (s : EditorHistory) : EditorHistory :=
  match s.undoStack.getLast? with
  | none => s
  | some g =>
    { undoStack := s.undoStack.dropLast
      redoStack := s.redoStack ++ [s.pixels]
      pixels := g }

/-- `PixelArtEditor.on_redo(e)`: symmetric to `on_undo` (no 50-cap here). -/
def on_redo (s : EditorHistory) : EditorHistory :=
  match s.redoStack.getLast? with
  | none => s
  | some g =>
    { undoStack := s.undoStack ++ [s.pixels]
      redoStack := s.redoStack.dropLast
      pixels := g }

/-- One mutating operation: it calls `_push_undo` with the pre-mutation
grid exactly once, then replaces the grid (`m` is the mutation). -/
def applyMutation (m : Grid → Grid) (s : EditorHistory) : EditorHistory :=
  let s' := push_undo s
  { s' with pixels := m s'.pixels }

/-- A sequence of mutating operations, oldest first. -/
def applyMutations (ms : List (Grid → Grid)) (s : EditorHistory) : EditorHistory :=
  ms.foldl (fun st m => applyMutation m st) s

/-- `on_undo` iterated `k` times. -/
def undoN : ℕ → EditorHistory → EditorHistory
  | 0, s => s
  | k + 1, s => undoN k (on_undo s)

/-- The grid-installation step of `load_icon` / the cache import: a loaded
`pixels` value that is a non-empty list is installed verbatim
(`self._push_undo(); self.pixels = pixels`) — no shape check is made. -/
def load_icon_install (loaded : Option Grid) (s : EditorHistory) : EditorHistory :=
  match loaded with
  | some p => if p.isEmpty then s else { push_undo s with pixels := p }
  | none => s

/-- The grid-shape invariant of the spec: exactly `n` rows of `n` cells. -/
def wellFormed (n : ℕ) (g : Grid) : Prop :=
  g.length = n ∧ ∀ row ∈ g, row.length = n

section HistoryLemmas

/-- `undoN` peels its last `on_undo` off the outside as well. -/
lemma undoN_succ_eq (k : ℕ) (s : EditorHistory) :
    undoN (k + 1) s = on_undo (undoN k s) := by
  induction k generalizing s with
  | zero => rfl
  | succ k ih =>
    show undoN (k + 1) (on_undo s) = on_undo (undoN (k + 1) s)
    rw [ih (on_undo s)]
    rfl

/-- After a mutation sequence of length at most 50, iterating `on_undo`
that many times restores the pre-sequence grid; the surviving undo stack
is a suffix (`drop j`) of the original one, with `j` nonzero only when the
50-cap overflowed. -/
lemma undoN_applyMutations (ms : List (Grid → Grid)) :
    ∀ s : EditorHistory, ms.length ≤ 50 →
      ∃ (r : List Grid) (j : ℕ),
        (j = 0 ∨ j + 50 ≤ s.undoStack.length + ms.length) ∧
        undoN ms.length (applyMutations ms s) = ⟨s.undoStack.drop j, r, s.pixels⟩ := by
  induction ms with
  | nil =>
    intro s _
    exact ⟨s.redoStack, 0, Or.inl rfl, rfl⟩
  | cons m ms ih =>
    intro s hk
    have hk2 : ms.length + 1 ≤ 50 := by simpa using hk
    obtain ⟨r, j₁, hj₁, hrec⟩ := ih (applyMutation m s) (by omega)
    have happly : applyMutations (m :: ms) s = applyMutations ms (applyMutation m s) := rfl
    have hlen : (m :: ms).length = ms.length + 1 := rfl
    have hpix₁ : (applyMutation m s).pixels = m s.pixels := rfl
    by_cases hbig : s.undoStack.length + 1 ≤ 50
    · -- the capped push did not overflow: nothing dropped
      have hcap : (applyMutation m s).undoStack = s.undoStack ++ [s.pixels] := by
        simp only [applyMutation, push_undo]
        rw [if_neg (by simp; omega)]
      have hlen₁ : (applyMutation m s).undoStack.length = s.undoStack.length + 1 := by
        rw [hcap]; simp
      have hj : j₁ ≤ s.undoStack.length := by
        rcases hj₁ with h0 | hb
        · omega
        · rw [hlen₁] at hb; omega
      have hdrop : (applyMutation m s).undoStack.drop j₁
          = s.undoStack.drop j₁ ++ [s.pixels] := by
        rw [hcap, List.drop_append_of_le_length hj]
      rw [happly, hlen, undoN_succ_eq, hrec]
      refine ⟨r ++ [m s.pixels], j₁, ?_, ?_⟩
      · rcases hj₁ with h0 | hb
        · exact Or.inl h0
        · rw [hlen₁] at hb
          right; omega
      · show on_undo ⟨(applyMutation m s).undoStack.drop j₁, r, (applyMutation m s).pixels⟩
            = _
        simp only [on_undo, hdrop, hpix₁, List.getLast?_concat, List.dropLast_concat]
    · -- overflow: the oldest entry is dropped from the front
      have hu50 : 50 ≤ s.undoStack.length := by omega
      have hcap : (applyMutation m s).undoStack = s.undoStack.drop 1 ++ [s.pixels] := by
        simp only [applyMutation, push_undo]
        rw [if_pos (by simp; omega), ← List.drop_one,
          List.drop_append_of_le_length (by omega)]
      have hlen₁ : (applyMutation m s).undoStack.length = s.undoStack.length := by
        rw [hcap]; simp; omega
      have hj : 1 + j₁ ≤ s.undoStack.length := by
        rcases hj₁ with h0 | hb
        · omega
        · rw [hlen₁] at hb; omega
      have hdrop : (applyMutation m s).undoStack.drop j₁
          = s.undoStack.drop (1 + j₁) ++ [s.pixels] := by
        rw [hcap, List.drop_append_of_le_length (by simp; omega), List.drop_drop]
      rw [happly, hlen, undoN_succ_eq, hrec]
      refine ⟨r ++ [m s.pixels], 1 + j₁, ?_, ?_⟩
      · rcases hj₁ with h0 | hb
        · right; omega
        · rw [hlen₁] at hb
          right; omega
      · show on_undo ⟨(applyMutation m s).undoStack.drop j₁, r, (applyMutation m s).pixels⟩
            = _
        simp only [on_undo, hdrop, hpix₁, List.getLast?_concat, List.dropLast_concat]

end HistoryLemmas

/-- C2.  History round-trip: for any starting state and any sequence of at
most 50 mutating operations (each pushing the pre-mutation grid once),
undoing as many times restores the grid from before the first mutation;
and a redo right after an undo restores the grid the undo removed. -/
theorem history_round_trip :
    (∀ (s : EditorHistory) (ms : List (Grid → Grid)), ms.length ≤ 50 →
        (undoN ms.length (applyMutations ms s)).pixels = s.pixels) ∧
    (∀ s : EditorHistory, s.undoStack ≠ [] →
        (on_redo (on_undo s)).pixels = s.pixels) := by
  constructor
  · intro s ms hk
    obtain ⟨r, j, _, heq⟩ := undoN_applyMutations ms s hk
    rw [heq]
  · intro s hne
    obtain ⟨g, hg⟩ := List.getLast?_isSome.mpr hne |> Option.isSome_iff_exists.mp
    simp only [on_undo, hg]
    have : (s.redoStack ++ [s.pixels]).getLast? = some s.pixels := List.getLast?_concat _
    simp only [on_redo, this]

/-- Witness for C2: a concrete two-mutation session undone twice recovers
the initial grid, and redo-after-undo recovers the mutated grid. -/
theorem history_round_trip_witness :
    (undoN 2 (applyMutations
        [fun _ => [[some ['a']]], fun _ => [[none]]] ⟨[], [], [[some ['b']]]⟩)).pixels
      = [[some ['b']]] ∧
    (on_redo (on_undo (⟨[[[none]]], [], [[some ['c']]]⟩ : EditorHistory))).pixels
      = [[some ['c']]] := by
  constructor
  · exact history_round_trip.1 ⟨[], [], [[some ['b']]]⟩
      [fun _ => [[some ['a']]], fun _ => [[none]]] (by decide)
  · exact history_round_trip.2 ⟨[[[none]]], [], [[some ['c']]]⟩ (by simp)

/-- C3.  `_push_undo` appends the current grid to the undo stack, drops the
oldest entry exactly when the stack overflows 50, keeps the stack within
the 50-entry bound, and clears the redo stack; hence any mutating
operation (which ends in `_push_undo` before writing the grid) leaves an
empty redo stack. -/
theorem push_undo_spec :
    (∀ s : EditorHistory,
        (push_undo s).redoStack = [] ∧
        (push_undo s).pixels = s.pixels ∧
        (s.undoStack.length < 50 → (push_undo s).undoStack = s.undoStack ++ [s.pixels]) ∧
        (50 ≤ s.undoStack.length →
          (push_undo s).undoStack = (s.undoStack ++ [s.pixels]).tail) ∧
        (s.undoStack.length ≤ 50 → (push_undo s).undoStack.length ≤ 50)) ∧
    (∀ (m : Grid → Grid) (s : EditorHistory), (applyMutation m s).redoStack = []) := by
  constructor
  · intro s
    refine ⟨rfl, rfl, ?_, ?_, ?_⟩
    · intro h
      simp only [push_undo]
      rw [if_neg (by simp; omega)]
    · intro h
      simp only [push_undo]
      rw [if_pos (by simp; omega)]
    · intro h
      simp only [push_undo]
      split <;> simp_all
  · intro m s
    rfl

/-- Witness for C3: the cap and append behavior evaluated at concrete
states, plus the spec scenario (three mutations, two undos, then a new
paint) ending with an empty redo stack. -/
theorem push_undo_spec_witness :
    (push_undo ⟨[[[none]]], [[[some ['x']]]], [[some ['y']]]⟩).undoStack
      = [[[none]], [[some ['y']]]] ∧
    (push_undo ⟨List.replicate 50 [[none]], [], [[some ['y']]]⟩).undoStack
      = (List.replicate 50 ([[none]] : Grid) ++ [[[some ['y']]]]).tail ∧
    (push_undo ⟨List.replicate 50 [[none]], [], [[some ['y']]]⟩).undoStack.length ≤ 50 ∧
    (applyMutation (fun _ => [[some ['p']]])
        (on_undo (on_undo (applyMutations
          [fun _ => [[some ['1']]], fun _ => [[some ['2']]], fun _ => [[some ['3']]]]
          ⟨[], [], [[none]]⟩)))).redoStack = [] := by
  refine ⟨?_, ?_, ?_, ?_⟩
  · exact ((push_undo_spec.1 ⟨[[[none]]], [[[some ['x']]]], [[some ['y']]]⟩).2.2.1 (by decide))
  · exact ((push_undo_spec.1 ⟨List.replicate 50 [[none]], [], [[some ['y']]]⟩).2.2.2.1
      (by simp))
  · exact ((push_undo_spec.1 ⟨List.replicate 50 [[none]], [], [[some ['y']]]⟩).2.2.2.2
      (by simp))
  · exact push_undo_spec.2 _ _

/-- C6 counterexample: `load_icon` installs a `1×…` ragged grid into an
editor whose size is 16 — the wrongly-shaped grid is not rejected. -/
theorem load_icon_shape_cex :
    (load_icon_install (some [[none], [none, none]])
        ⟨[], [], List.replicate 16 (List.replicate 16 none)⟩).pixels
      = [[none], [none, none]] ∧
    ¬ wellFormed 16 [[none], [none, none]] := by
  constructor
  · rfl
  · intro ⟨h, _⟩
    simp at h

/-- C6 amended: the grid-installation step of `load_icon`/`do_import`
installs any non-empty loaded list verbatim, with no shape validation;
only an empty or missing pixel list leaves the grid unchanged. -/
theorem load_icon_no_shape_check :
    (∀ (p : Grid) (s : EditorHistory), ¬p.isEmpty →
        (load_icon_install (some p) s).pixels = p) ∧
    (∀ s : EditorHistory, load_icon_install none s = s) ∧
    (∀ s : EditorHistory, load_icon_install (some []) s = s) := by
  refine ⟨?_, fun _ => rfl, fun _ => rfl⟩
  intro p s hp
  simp only [load_icon_install]
  rw [if_neg (by simpa using hp)]

/-- Witness for C6 amended: a concrete non-empty (well-formed) grid is
installed. -/
theorem load_icon_no_shape_check_witness :
    (load_icon_install (some [[some ['a']]]) ⟨[], [], [[none]]⟩).pixels = [[some ['a']]] := by
  exact load_icon_no_shape_check.1 [[some ['a']]] ⟨[], [], [[none]]⟩ (by decide)

/-- Unfold `_color_distance` on two concrete colors to the truncated
Euclidean RGB distance of their decodings. -/
lemma color_distance_some_some (s₁ s₂ : PyStr) :
    color_distance (some s₁) (some s₂) =
      (if floatInfThresholdZ ≤
          ((hex_to_rgba (some s₁) 255).1 - (hex_to_rgba (some s₂) 255).1) ^ 2
            + ((hex_to_rgba (some s₁) 255).2.1 - (hex_to_rgba (some s₂) 255).2.1) ^ 2
            + ((hex_to_rgba (some s₁) 255).2.2.1 - (hex_to_rgba (some s₂) 255).2.2.1) ^ 2
        then 255
        else Nat.sqrt ((((hex_to_rgba (some s₁) 255).1 - (hex_to_rgba (some s₂) 255).1) ^ 2
          + ((hex_to_rgba (some s₁) 255).2.1 - (hex_to_rgba (some s₂) 255).2.1) ^ 2
          + ((hex_to_rgba (some s₁) 255).2.2.1 - (hex_to_rgba (some s₂) 255).2.2.1) ^ 2).toNat))
      := by
  simp only [color_distance]

section HexCodecLemmas

set_option maxHeartbeats 1000000 in
/-- A hex digit's value is below 16, its uppercase re-rendering recovers the
uppercased character, and it is not whitespace. -/
lemma hexDigitVal_facts {c : Char} {v : ℕ} (h : hexDigitVal c = some v) :
    v < 16 ∧ hexUpChar v = c.toUpper ∧ isPyWs c = false := by
  unfold hexDigitVal at h
  obtain ⟨⟨c', v'⟩, hfind, rfl⟩ := Option.map_eq_some'.mp h
  have hp := List.find?_some hfind
  have hmem := List.mem_of_find?_eq_some hfind
  simp only [decide_eq_true_eq] at hp
  subst hp
  fin_cases hmem <;> decide

/-- `int(c₁c₂, 16)` on two hex digits. -/
lemma hexPairVal_hex {c₁ c₂ : Char} {v₁ v₂ : ℕ}
    (h₁ : hexDigitVal c₁ = some v₁) (h₂ : hexDigitVal c₂ = some v₂) :
    hexPairVal c₁ c₂ = some (16 * (v₁ : ℤ) + v₂) := by
  unfold hexPairVal
  rw [h₁, h₂]

/-- `f"{v:02X}"` undoes a two-hex-digit decode, up to uppercasing. -/
lemma hx2_of_hexDigits {c₁ c₂ : Char} {v₁ v₂ : ℕ}
    (h₁ : hexDigitVal c₁ = some v₁) (h₂ : hexDigitVal c₂ = some v₂) :
    hx2 (16 * (v₁ : ℤ) + v₂) = [c₁.toUpper, c₂.toUpper] := by
  obtain ⟨hv₁, hu₁, -⟩ := hexDigitVal_facts h₁
  obtain ⟨hv₂, hu₂, -⟩ := hexDigitVal_facts h₂
  unfold hx2
  have ht : (16 * (v₁ : ℤ) + v₂).toNat = 16 * v₁ + v₂ := by omega
  rw [ht]
  have hd : (16 * v₁ + v₂) / 16 % 16 = v₁ := by omega
  have hm : (16 * v₁ + v₂) % 16 = v₂ := by omega
  rw [hd, hm, hu₁, hu₂]

/-- `dropWhile` is the identity on a whitespace-free string. -/
lemma dropWhile_ws_eq_self {l : PyStr} (h : ∀ c ∈ l, isPyWs c = false) :
    l.dropWhile isPyWs = l := by
  cases l with
  | nil => rfl
  | cons a t =>
    rw [List.dropWhile_cons_of_neg]
    simp [h a (by simp)]

/-- `str.strip()` is the identity on a whitespace-free string. -/
lemma pyStrip_no_ws {l : PyStr} (h : ∀ c ∈ l, isPyWs c = false) : pyStrip l = l := by
  unfold pyStrip
  rw [dropWhile_ws_eq_self h, dropWhile_ws_eq_self, List.reverse_reverse]
  intro c hc
  exact h c (List.mem_reverse.mp hc)

/-- A string starting with `'#'` does not satisfy `lower().startswith('rgba')`. -/
lemma startsWithRgba_hash (cs : PyStr) : startsWithRgba ('#' :: cs) = false := by
  simp [startsWithRgba]

/-- Decoding an explicit whitespace-free 7-character `#RRGGBB` string through
`_hex_to_rgba` reads the three hex pairs (alpha defaults to 255). -/
lemma hex_to_rgba_hex6 {c₁ c₂ c₃ c₄ c₅ c₆ : Char} {v₁ v₂ v₃ v₄ v₅ v₆ : ℕ}
    (h₁ : hexDigitVal c₁ = some v₁) (h₂ : hexDigitVal c₂ = some v₂)
    (h₃ : hexDigitVal c₃ = some v₃) (h₄ : hexDigitVal c₄ = some v₄)
    (h₅ : hexDigitVal c₅ = some v₅) (h₆ : hexDigitVal c₆ = some v₆) :
    hex_to_rgba (some ('#' :: [c₁, c₂, c₃, c₄, c₅, c₆])) 255
      = (16 * (v₁ : ℤ) + v₂, 16 * (v₃ : ℤ) + v₄, 16 * (v₅ : ℤ) + v₆, 255) := by
  have hnws : ∀ c ∈ ('#' :: [c₁, c₂, c₃, c₄, c₅, c₆]), isPyWs c = false := by
    intro c hcm
    simp only [List.mem_cons] at hcm
    rcases hcm with e | e | e | e | e | e | e | e
    all_goals try subst e
    · decide
    · exact (hexDigitVal_facts h₁).2.2
    · exact (hexDigitVal_facts h₂).2.2
    · exact (hexDigitVal_facts h₃).2.2
    · exact (hexDigitVal_facts h₄).2.2
    · exact (hexDigitVal_facts h₅).2.2
    · exact (hexDigitVal_facts h₆).2.2
    · simp at e
  simp only [hex_to_rgba, List.isEmpty_cons, pyStrip_no_ws hnws, startsWithRgba_hash,
    Bool.false_and, Bool.false_eq_true, if_false, List.head?_cons, List.tail_cons,
    if_pos rfl, if_true, hexCore, hexPairVal_hex h₁ h₂, hexPairVal_hex h₃ h₄,
    hexPairVal_hex h₅ h₆]

/-- Decoding an explicit whitespace-free 9-character `#RRGGBBAA` string
through `_hex_to_rgba` reads the four hex pairs. -/
lemma hex_to_rgba_hex8 {c₁ c₂ c₃ c₄ c₅ c₆ c₇ c₈ : Char} {v₁ v₂ v₃ v₄ v₅ v₆ v₇ v₈ : ℕ}
    (h₁ : hexDigitVal c₁ = some v₁) (h₂ : hexDigitVal c₂ = some v₂)
    (h₃ : hexDigitVal c₃ = some v₃) (h₄ : hexDigitVal c₄ = some v₄)
    (h₅ : hexDigitVal c₅ = some v₅) (h₆ : hexDigitVal c₆ = some v₆)
    (h₇ : hexDigitVal c₇ = some v₇) (h₈ : hexDigitVal c₈ = some v₈) :
    hex_to_rgba (some ('#' :: [c₁, c₂, c₃, c₄, c₅, c₆, c₇, c₈])) 255
      = (16 * (v₁ : ℤ) + v₂, 16 * (v₃ : ℤ) + v₄, 16 * (v₅ : ℤ) + v₆,
          16 * (v₇ : ℤ) + v₈) := by
  have hnws : ∀ c ∈ ('#' :: [c₁, c₂, c₃, c₄, c₅, c₆, c₇, c₈]), isPyWs c = false := by
    intro c hcm
    simp only [List.mem_cons] at hcm
    rcases hcm with e | e | e | e | e | e | e | e | e | e
    all_goals try subst e
    · decide
    · exact (hexDigitVal_facts h₁).2.2
    · exact (hexDigitVal_facts h₂).2.2
    · exact (hexDigitVal_facts h₃).2.2
    · exact (hexDigitVal_facts h₄).2.2
    · exact (hexDigitVal_facts h₅).2.2
    · exact (hexDigitVal_facts h₆).2.2
    · exact (hexDigitVal_facts h₇).2.2
    · exact (hexDigitVal_facts h₈).2.2
    · simp at e
  simp only [hex_to_rgba, List.isEmpty_cons, pyStrip_no_ws hnws, startsWithRgba_hash,
    Bool.false_and, Bool.false_eq_true, if_false, List.head?_cons, List.tail_cons,
    if_pos rfl, if_true, hexCore, hexPairVal_hex h₁ h₂, hexPairVal_hex h₃ h₄,
    hexPairVal_hex h₅ h₆, hexPairVal_hex h₇ h₈]

/-- A successful `int(c₁c₂, 16)` lies in `-15 .. 255`: two digits give
`0 .. 255`, a padded or sign-prefixed single digit gives `-15 .. 15`. -/
lemma hexPairVal_bounds {c₁ c₂ : Char} {v : ℤ} (h : hexPairVal c₁ c₂ = some v) :
    -15 ≤ v ∧ v ≤ 255 := by
  rcases h₁ : hexDigitVal c₁ with _ | v₁ <;> rcases h₂ : hexDigitVal c₂ with _ | v₂ <;>
    simp only [hexPairVal, h₁, h₂] at h
  · split_ifs at h <;> simp at h
  · have hv₂ := (hexDigitVal_facts h₂).1
    split_ifs at h <;> simp at h <;> omega
  · have hv₁ := (hexDigitVal_facts h₁).1
    split_ifs at h <;> simp at h <;> omega
  · have hv₁ := (hexDigitVal_facts h₁).1
    have hv₂ := (hexDigitVal_facts h₂).1
    simp only [Option.some.injEq] at h
    omega

/-- A successful pair decode constrains its first character: a hex digit,
int-parser whitespace, or a sign. -/
lemma hexPairVal_first {c₁ c₂ : Char} {v : ℤ} (h : hexPairVal c₁ c₂ = some v) :
    (hexDigitVal c₁).isSome = true ∨ isIntWs c₁ = true ∨ c₁ = '+' ∨ c₁ = '-' := by
  by_cases hd : (hexDigitVal c₁).isSome = true
  · exact Or.inl hd
  · have hnone : hexDigitVal c₁ = none := by
      rcases hx : hexDigitVal c₁ with _ | v₁
      · rfl
      · rw [hx] at hd
        simp at hd
    simp only [hexPairVal, hnone, Option.map_none'] at h
    split_ifs at h with hw hw₂ hp hm <;>
      first
      | exact Or.inr (Or.inl hw)
      | exact Or.inr (Or.inr (Or.inl hp))
      | exact Or.inr (Or.inr (Or.inr hm))
      | simp at h

/-- No character with a hex-digit value, ASCII whitespace, or sign lowercases
to `r` — this rules out the `rgba` prefix on hex forms. -/
lemma pair_head_toLower_ne_r {c : Char}
    (h : (hexDigitVal c).isSome = true ∨ isIntWs c = true ∨ c = '+' ∨ c = '-') :
    c.toLower ≠ 'r' := by
  rcases h with h | h | h | h
  · obtain ⟨v, hv⟩ := Option.isSome_iff_exists.mp h
    unfold hexDigitVal at hv
    obtain ⟨⟨c', v'⟩, hfind, -⟩ := Option.map_eq_some'.mp hv
    have hp := List.find?_some hfind
    have hmem := List.mem_of_find?_eq_some hfind
    simp only [decide_eq_true_eq] at hp
    subst hp
    fin_cases hmem <;> decide
  · unfold isIntWs at h
    simp only [Bool.or_eq_true, decide_eq_true_eq] at h
    rcases h with ((((h | h) | h) | h) | h) | h <;> subst h <;> decide
  · subst h
    decide
  · subst h
    decide

/-- `s.lower().startswith('rgba')` forces the first character to lowercase
to `r`. -/
lemma startsWithRgba_head {c₁ : Char} {t : PyStr} (h : startsWithRgba (c₁ :: t) = true) :
    c₁.toLower = 'r' := by
  unfold startsWithRgba at h
  simp only [List.map_cons, List.take_succ_cons, decide_eq_true_eq, List.cons.injEq] at h
  exact h.1

/-- A string accepted by the hex-length branches does not carry the `rgba`
prefix (its first character is a digit, whitespace, or sign). -/
lemma startsWithRgba_hexFormB {s₁ : PyStr} (hf : hexFormB s₁ = true) :
    startsWithRgba s₁ = false := by
  rcases hs : startsWithRgba s₁ with _ | _
  · rfl
  · exfalso
    rcases s₁ with _ | ⟨c₁, t⟩
    · simp [hexFormB] at hf
    · have hlow : c₁.toLower = 'r' := startsWithRgba_head hs
      have hc : (hexDigitVal c₁).isSome = true ∨ isIntWs c₁ = true ∨ c₁ = '+' ∨ c₁ = '-' := by
        rcases t with _ | ⟨c₂, _ | ⟨c₃, _ | ⟨c₄, _ | ⟨c₅, _ | ⟨c₆, _ | ⟨c₇,
          _ | ⟨c₈, t'⟩⟩⟩⟩⟩⟩⟩
        · simp [hexFormB] at hf
        · simp [hexFormB] at hf
        · simp only [hexFormB, Bool.and_eq_true, Option.isSome_iff_exists] at hf
          obtain ⟨v, hv⟩ := hf.1.1
          exact hexPairVal_first hv
        · simp only [hexFormB, Bool.and_eq_true, Option.isSome_iff_exists] at hf
          obtain ⟨v, hv⟩ := hf.1.1.1
          exact hexPairVal_first hv
        · simp [hexFormB] at hf
        · simp only [hexFormB, Bool.and_eq_true, Option.isSome_iff_exists] at hf
          obtain ⟨v, hv⟩ := hf.1.1
          exact hexPairVal_first hv
        · simp [hexFormB] at hf
        · rcases t' with _ | ⟨c₉, t''⟩
          · simp only [hexFormB, Bool.and_eq_true, Option.isSome_iff_exists] at hf
            obtain ⟨v, hv⟩ := hf.1.1.1
            exact hexPairVal_first hv
          · simp [hexFormB] at hf
      exact pair_head_toLower_ne_r hc hlow

/-- When the hex-length branches accept, all three RGB components of
`hexCore` are pair values in `-15 .. 255`. -/
lemma hexCore_bounds {s₁ : PyStr} (hf : hexFormB s₁ = true) (alpha : ℤ) :
    (-15 ≤ (hexCore s₁ alpha).1 ∧ (hexCore s₁ alpha).1 ≤ 255) ∧
    (-15 ≤ (hexCore s₁ alpha).2.1 ∧ (hexCore s₁ alpha).2.1 ≤ 255) ∧
    (-15 ≤ (hexCore s₁ alpha).2.2.1 ∧ (hexCore s₁ alpha).2.2.1 ≤ 255) := by
  rcases s₁ with _ | ⟨c₁, _ | ⟨c₂, _ | ⟨c₃, _ | ⟨c₄, _ | ⟨c₅, _ | ⟨c₆, _ | ⟨c₇,
    _ | ⟨c₈, _ | ⟨c₉, t⟩⟩⟩⟩⟩⟩⟩⟩⟩
  · simp [hexFormB] at hf
  · simp [hexFormB] at hf
  · simp [hexFormB] at hf
  · simp only [hexFormB, Bool.and_eq_true, Option.isSome_iff_exists] at hf
    obtain ⟨⟨⟨r, hr⟩, ⟨g, hg⟩⟩, ⟨b, hb⟩⟩ := hf
    simp only [hexCore, hr, hg, hb]
    exact ⟨hexPairVal_bounds hr, hexPairVal_bounds hg, hexPairVal_bounds hb⟩
  · simp only [hexFormB, Bool.and_eq_true, Option.isSome_iff_exists] at hf
    obtain ⟨⟨⟨⟨r, hr⟩, ⟨g, hg⟩⟩, ⟨b, hb⟩⟩, ⟨a, ha⟩⟩ := hf
    simp only [hexCore, hr, hg, hb, ha]
    exact ⟨hexPairVal_bounds hr, hexPairVal_bounds hg, hexPairVal_bounds hb⟩
  · simp [hexFormB] at hf
  · simp only [hexFormB, Bool.and_eq_true, Option.isSome_iff_exists] at hf
    obtain ⟨⟨⟨r, hr⟩, ⟨g, hg⟩⟩, ⟨b, hb⟩⟩ := hf
    simp only [hexCore, hr, hg, hb]
    exact ⟨hexPairVal_bounds hr, hexPairVal_bounds hg, hexPairVal_bounds hb⟩
  · simp [hexFormB] at hf
  · simp only [hexFormB, Bool.and_eq_true, Option.isSome_iff_exists] at hf
    obtain ⟨⟨⟨⟨r, hr⟩, ⟨g, hg⟩⟩, ⟨b, hb⟩⟩, ⟨a, ha⟩⟩ := hf
    simp only [hexCore, hr, hg, hb, ha]
    exact ⟨hexPairVal_bounds hr, hexPairVal_bounds hg, hexPairVal_bounds hb⟩
  · simp [hexFormB] at hf

/-- Decoding a hex-form color (see `hexCellB`): the result's RGB components
lie in `-15 .. 255`, the range of `int(·, 16)` pair values. -/
lemma hex_to_rgba_hexCellB {s : PyStr} (h : hexCellB (some s) = true) :
    (-15 ≤ (hex_to_rgba (some s) 255).1 ∧ (hex_to_rgba (some s) 255).1 ≤ 255) ∧
    (-15 ≤ (hex_to_rgba (some s) 255).2.1 ∧ (hex_to_rgba (some s) 255).2.1 ≤ 255) ∧
    (-15 ≤ (hex_to_rgba (some s) 255).2.2.1 ∧ (hex_to_rgba (some s) 255).2.2.1 ≤ 255) := by
  simp only [hexCellB] at h
  by_cases he : s.isEmpty
  · have hval : hex_to_rgba (some s) 255 = (0, 0, 0, 255) := by
      simp only [hex_to_rgba, he, if_true]
    rw [hval]
    norm_num
  · have he' : s.isEmpty = false := by
      rcases hb : s.isEmpty with _ | _
      · rfl
      · exact absurd hb he
    rw [he', Bool.false_or] at h
    have hnr : startsWithRgba (pyStrip s) = false := by
      rcases hps : pyStrip s with _ | ⟨c', t⟩
      · rfl
      · by_cases hhash : c' = '#'
        · subst hhash
          exact startsWithRgba_hash t
        · have hcond : ¬((pyStrip s).head? = some '#') := by
            rw [hps]
            simp [hhash]
          rw [if_neg hcond, hps] at h
          exact startsWithRgba_hexFormB h
    have hval : hex_to_rgba (some s) 255 =
        hexCore (if (pyStrip s).head? = some '#' then (pyStrip s).tail else pyStrip s) 255 := by
      simp only [hex_to_rgba, he', Bool.false_eq_true, if_false, hnr, Bool.false_and]
    rw [hval]
    exact hexCore_bounds h 255

end HexCodecLemmas

/-- All three RGB components of a decoded quadruple are bytes. -/
def inByteRGB (q : ℤ × ℤ × ℤ × ℤ) : Prop :=
  0 ≤ q.1 ∧ q.1 ≤ 255 ∧ 0 ≤ q.2.1 ∧ q.2.1 ≤ 255 ∧ 0 ≤ q.2.2.1 ∧ q.2.2.1 ≤ 255

/-- C8 counterexample: the length-6 color `"-a-a-a"` decodes through
`int("-a", 16) = -10` to negative components, so its distance to white is
`isqrt(3 * 265²) = isqrt(210675) = 458`, outside the claimed 0..441 range. -/
theorem color_distance_range_cex :
    441 < color_distance (some ("-a-a-a".data)) (some ("#FFFFFF".data)) := by
  have h1 : hex_to_rgba (some ("-a-a-a".data)) 255 = (-10, -10, -10, 255) := by decide
  have h2 : hex_to_rgba (some ("#FFFFFF".data)) 255 = (255, 255, 255, 255) := by decide
  rw [color_distance_some_some, h1, h2]
  rw [if_neg (by norm_num [floatInfThresholdZ])]
  have h3 : (((-10 : ℤ) - 255) ^ 2 + ((-10 : ℤ) - 255) ^ 2
      + ((-10 : ℤ) - 255) ^ 2).toNat = 210675 := by decide
  simp only [h3]
  calc (441 : ℕ) < 442 := by norm_num
  _ ≤ Nat.sqrt 210675 := Nat.le_sqrt.mpr (by norm_num)

/-- C8 amended: `_color_distance` is 0 on any pair of equal colors (parseable
or not — the sum of squared differences is 0, below the overflow threshold),
0 on two `None`s, 255 whenever exactly one side is `None`; on two hex-form
colors (where decoding is exact integer arithmetic, see `hexCellB`) it is the
truncated Euclidean RGB distance (alpha ignored), bounded by 441 when both
decodings have byte RGB components (as all digits-only hex forms do) but able
to exceed 441 for sign-padded pairs; on other concrete pairs the `** 0.5`
conversion raises `OverflowError` once the squared sum reaches
`2 ^ 1024 - 2 ^ 970`, and the `except` arm returns 255. -/
theorem color_distance_spec :
    (∀ c : Cell, color_distance c c = 0) ∧
    color_distance none none = 0 ∧
    (∀ s : PyStr, color_distance none (some s) = 255 ∧ color_distance (some s) none = 255) ∧
    (∀ s₁ s₂ : PyStr, hexCellB (some s₁) = true → hexCellB (some s₂) = true →
      color_distance (some s₁) (some s₂) =
        Nat.sqrt ((((hex_to_rgba (some s₁) 255).1 - (hex_to_rgba (some s₂) 255).1) ^ 2
          + ((hex_to_rgba (some s₁) 255).2.1 - (hex_to_rgba (some s₂) 255).2.1) ^ 2
          + ((hex_to_rgba (some s₁) 255).2.2.1 - (hex_to_rgba (some s₂) 255).2.2.1) ^ 2).toNat))
      ∧
    (∀ s₁ s₂ : PyStr, hexCellB (some s₁) = true → hexCellB (some s₂) = true →
      inByteRGB (hex_to_rgba (some s₁) 255) →
      inByteRGB (hex_to_rgba (some s₂) 255) →
      color_distance (some s₁) (some s₂) ≤ 441) := by
  have hthr : ∀ s₁ s₂ : PyStr, hexCellB (some s₁) = true → hexCellB (some s₂) = true →
      ¬(floatInfThresholdZ ≤
        ((hex_to_rgba (some s₁) 255).1 - (hex_to_rgba (some s₂) 255).1) ^ 2
          + ((hex_to_rgba (some s₁) 255).2.1 - (hex_to_rgba (some s₂) 255).2.1) ^ 2
          + ((hex_to_rgba (some s₁) 255).2.2.1 - (hex_to_rgba (some s₂) 255).2.2.1) ^ 2) := by
    intro s₁ s₂ h₁ h₂
    obtain ⟨⟨hr₁, hr₁'⟩, ⟨hg₁, hg₁'⟩, hb₁, hb₁'⟩ := hex_to_rgba_hexCellB h₁
    obtain ⟨⟨hr₂, hr₂'⟩, ⟨hg₂, hg₂'⟩, hb₂, hb₂'⟩ := hex_to_rgba_hexCellB h₂
    have hr : ((hex_to_rgba (some s₁) 255).1 - (hex_to_rgba (some s₂) 255).1) ^ 2
        ≤ 270 ^ 2 := sq_le_sq' (by omega) (by omega)
    have hg : ((hex_to_rgba (some s₁) 255).2.1 - (hex_to_rgba (some s₂) 255).2.1) ^ 2
        ≤ 270 ^ 2 := sq_le_sq' (by omega) (by omega)
    have hb : ((hex_to_rgba (some s₁) 255).2.2.1 - (hex_to_rgba (some s₂) 255).2.2.1) ^ 2
        ≤ 270 ^ 2 := sq_le_sq' (by omega) (by omega)
    have hbig : (218700 : ℤ) < floatInfThresholdZ := by norm_num [floatInfThresholdZ]
    omega
  refine ⟨?_, rfl, fun s => ⟨rfl, rfl⟩, ?_, ?_⟩
  · intro c
    cases c with
    | none => rfl
    | some s =>
      rw [color_distance_some_some]
      rw [if_neg (by simp only [sub_self]; norm_num [floatInfThresholdZ])]
      simp
  · intro s₁ s₂ h₁ h₂
    rw [color_distance_some_some, if_neg (hthr s₁ s₂ h₁ h₂)]
  · intro s₁ s₂ hc₁ hc₂ h₁ h₂
    rw [color_distance_some_some, if_neg (hthr s₁ s₂ hc₁ hc₂)]
    obtain ⟨hr₁, hr₁', hg₁, hg₁', hb₁, hb₁'⟩ := h₁
    obtain ⟨hr₂, hr₂', hg₂, hg₂', hb₂, hb₂'⟩ := h₂
    have hr : ((hex_to_rgba (some s₁) 255).1 - (hex_to_rgba (some s₂) 255).1) ^ 2
        ≤ 255 ^ 2 := sq_le_sq' (by omega) (by omega)
    have hg : ((hex_to_rgba (some s₁) 255).2.1 - (hex_to_rgba (some s₂) 255).2.1) ^ 2
        ≤ 255 ^ 2 := sq_le_sq' (by omega) (by omega)
    have hb : ((hex_to_rgba (some s₁) 255).2.2.1 - (hex_to_rgba (some s₂) 255).2.2.1) ^ 2
        ≤ 255 ^ 2 := sq_le_sq' (by omega) (by omega)
    have hsum : (((hex_to_rgba (some s₁) 255).1 - (hex_to_rgba (some s₂) 255).1) ^ 2
        + ((hex_to_rgba (some s₁) 255).2.1 - (hex_to_rgba (some s₂) 255).2.1) ^ 2
        + ((hex_to_rgba (some s₁) 255).2.2.1 - (hex_to_rgba (some s₂) 255).2.2.1) ^ 2).toNat
        ≤ 195075 := by
      rw [Int.toNat_le]
      push_cast
      omega
    calc Nat.sqrt _ ≤ Nat.sqrt 195075 := Nat.sqrt_le_sqrt hsum
    _ = 441 := (Nat.eq_sqrt.mpr (by norm_num)).symm

/-- Witness for C8: the amended distance facts evaluated at concrete colors,
with the hex-form and byte-component hypotheses discharged. -/
theorem color_distance_spec_witness :
    color_distance (some ("#1a2b3c".data)) (some ("#1a2b3c".data)) = 0 ∧
    color_distance none (some ("zzz".data)) = 255 ∧
    color_distance (some ("#000000".data)) (some ("#FFFFFF".data)) ≤ 441 := by
  refine ⟨color_distance_spec.1 _, (color_distance_spec.2.2.1 _).1, ?_⟩
  exact color_distance_spec.2.2.2.2 _ _ (by decide) (by decide)
    (by unfold inByteRGB; decide) (by unfold inByteRGB; decide)

/-- C5.  Hex codec round-trip: decoding a 7-character `#RRGGBB` and
re-encoding with the formatting branches of `_image_to_pixels` uppercases
the string; decoding a 9-character `#RRGGBBAA` re-encodes to the uppercased
string, with the alpha suffix dropped exactly when the decoded alpha is 255. -/
theorem hex_codec_round_trip :
    (∀ (c₁ c₂ c₃ c₄ c₅ c₆ : Char) (r g b a : ℤ),
      (∀ c ∈ [c₁, c₂, c₃, c₄, c₅, c₆], (hexDigitVal c).isSome) →
      hex_to_rgba (some ('#' :: [c₁, c₂, c₃, c₄, c₅, c₆])) 255 = (r, g, b, a) →
      encodeRGBA r g b a = ('#' :: [c₁, c₂, c₃, c₄, c₅, c₆]).map Char.toUpper) ∧
    (∀ (c₁ c₂ c₃ c₄ c₅ c₆ c₇ c₈ : Char) (r g b a : ℤ),
      (∀ c ∈ [c₁, c₂, c₃, c₄, c₅, c₆, c₇, c₈], (hexDigitVal c).isSome) →
      hex_to_rgba (some ('#' :: [c₁, c₂, c₃, c₄, c₅, c₆, c₇, c₈])) 255 = (r, g, b, a) →
      encodeRGBA r g b a =
        if a = 255
        then (('#' :: [c₁, c₂, c₃, c₄, c₅, c₆, c₇, c₈]).take 7).map Char.toUpper
        else ('#' :: [c₁, c₂, c₃, c₄, c₅, c₆, c₇, c₈]).map Char.toUpper) := by
  constructor
  · intro c₁ c₂ c₃ c₄ c₅ c₆ r g b a hall hdec
    obtain ⟨v₁, h₁⟩ := Option.isSome_iff_exists.mp (hall c₁ (by simp))
    obtain ⟨v₂, h₂⟩ := Option.isSome_iff_exists.mp (hall c₂ (by simp))
    obtain ⟨v₃, h₃⟩ := Option.isSome_iff_exists.mp (hall c₃ (by simp))
    obtain ⟨v₄, h₄⟩ := Option.isSome_iff_exists.mp (hall c₄ (by simp))
    obtain ⟨v₅, h₅⟩ := Option.isSome_iff_exists.mp (hall c₅ (by simp))
    obtain ⟨v₆, h₆⟩ := Option.isSome_iff_exists.mp (hall c₆ (by simp))
    rw [hex_to_rgba_hex6 h₁ h₂ h₃ h₄ h₅ h₆] at hdec
    obtain ⟨rfl, rfl, rfl, rfl⟩ : r = 16 * (v₁ : ℤ) + v₂ ∧ g = 16 * (v₃ : ℤ) + v₄
        ∧ b = 16 * (v₅ : ℤ) + v₆ ∧ a = 255 := by
      injection hdec with hr hrest
      injection hrest with hg hrest
      injection hrest with hb ha
      exact ⟨hr.symm, hg.symm, hb.symm, ha.symm⟩
    have hhash : '#'.toUpper = '#' := by decide
    simp only [encodeRGBA, if_pos rfl, hexStr6, hx2_of_hexDigits h₁ h₂,
      hx2_of_hexDigits h₃ h₄, hx2_of_hexDigits h₅ h₆, List.map_cons, hhash]
    rfl
  · intro c₁ c₂ c₃ c₄ c₅ c₆ c₇ c₈ r g b a hall hdec
    obtain ⟨v₁, h₁⟩ := Option.isSome_iff_exists.mp (hall c₁ (by simp))
    obtain ⟨v₂, h₂⟩ := Option.isSome_iff_exists.mp (hall c₂ (by simp))
    obtain ⟨v₃, h₃⟩ := Option.isSome_iff_exists.mp (hall c₃ (by simp))
    obtain ⟨v₄, h₄⟩ := Option.isSome_iff_exists.mp (hall c₄ (by simp))
    obtain ⟨v₅, h₅⟩ := Option.isSome_iff_exists.mp (hall c₅ (by simp))
    obtain ⟨v₆, h₆⟩ := Option.isSome_iff_exists.mp (hall c₆ (by simp))
    obtain ⟨v₇, h₇⟩ := Option.isSome_iff_exists.mp (hall c₇ (by simp))
    obtain ⟨v₈, h₈⟩ := Option.isSome_iff_exists.mp (hall c₈ (by simp))
    rw [hex_to_rgba_hex8 h₁ h₂ h₃ h₄ h₅ h₆ h₇ h₈] at hdec
    obtain ⟨rfl, rfl, rfl, rfl⟩ : r = 16 * (v₁ : ℤ) + v₂ ∧ g = 16 * (v₃ : ℤ) + v₄
        ∧ b = 16 * (v₅ : ℤ) + v₆ ∧ a = 16 * (v₇ : ℤ) + v₈ := by
      injection hdec with hr hrest
      injection hrest with hg hrest
      injection hrest with hb ha
      exact ⟨hr.symm, hg.symm, hb.symm, ha.symm⟩
    have hhash : '#'.toUpper = '#' := by decide
    by_cases ha : (16 * (v₇ : ℤ) + v₈) = 255
    · rw [if_pos ha]
      simp only [encodeRGBA, if_pos ha, hexStr6, hx2_of_hexDigits h₁ h₂,
        hx2_of_hexDigits h₃ h₄, hx2_of_hexDigits h₅ h₆, List.map_cons, hhash]
      rfl
    · rw [if_neg ha]
      simp only [encodeRGBA, if_neg ha, hexStr8, hx2_of_hexDigits h₁ h₂,
        hx2_of_hexDigits h₃ h₄, hx2_of_hexDigits h₅ h₆, hx2_of_hexDigits h₇ h₈,
        List.map_cons, hhash]
      rfl

/-- Witness for C5: round-tripping `#a1b2c3`, `#a1b2c3ff` (alpha suffix
dropped) and `#a1b2c304` (alpha suffix kept) at concrete characters. -/
theorem hex_codec_round_trip_witness :
    encodeRGBA 161 178 195 255 = "#A1B2C3".data ∧
    encodeRGBA 161 178 195 4 = "#A1B2C304".data := by
  constructor
  · have h := hex_codec_round_trip.1 'a' '1' 'b' '2' 'c' '3' 161 178 195 255
      (by decide) (by decide)
    rw [h]
    decide
  · have h := hex_codec_round_trip.2 'a' '1' 'b' '2' 'c' '3' '0' '4' 161 178 195 4
      (by decide) (by decide)
    rw [h]
    decide


/-- A part list the comma branch rejects yields the opaque-black fallback. -/
lemma commaBranch_black {parts : List PyStr} (h : commaPartsOk parts = false)
    (alpha : ℤ) : commaBranch parts alpha = (0, 0, 0, alpha) := by
  unfold commaPartsOk at h
  unfold commaBranch
  rcases parts with _ | ⟨p₀, _ | ⟨p₁, _ | ⟨p₂, rest⟩⟩⟩
  · rfl
  · rfl
  · rfl
  · rcases h₀ : pyIntFloat p₀ with _ | r
    · simp [h₀]
    · rcases h₁ : pyIntFloat p₁ with _ | g
      · simp [h₀, h₁]
      · rcases h₂ : pyIntFloat p₂ with _ | b
        · simp [h₀, h₁, h₂]
        · rcases rest with _ | ⟨p₃, t⟩
          · simp [h₀, h₁, h₂] at h
          · rcases h₃ : pyIntFloat p₃ with _ | a
            · simp [h₀, h₁, h₂, h₃]
            · simp [h₀, h₁, h₂, h₃] at h

/-- A string both the hex-length branches and the comma branch reject makes
`hexCore` fall through to opaque black. -/
lemma hexCore_black {s₁ : PyStr} (hhex : hexFormB s₁ = false)
    (hcomma : commaFormB s₁ = false) (alpha : ℤ) : hexCore s₁ alpha = (0, 0, 0, alpha) := by
  unfold commaFormB at hcomma
  rcases s₁ with _ | ⟨c₁, _ | ⟨c₂, _ | ⟨c₃, _ | ⟨c₄, _ | ⟨c₅, _ | ⟨c₆, _ | ⟨c₇,
    _ | ⟨c₈, _ | ⟨c₉, t⟩⟩⟩⟩⟩⟩⟩⟩⟩
  · exact commaBranch_black hcomma alpha
  · exact commaBranch_black hcomma alpha
  · exact commaBranch_black hcomma alpha
  · unfold hexFormB at hhex
    unfold hexCore
    rcases h₁ : hexPairVal c₁ c₁ with _ | r
    · simp [h₁]
    · rcases h₂ : hexPairVal c₂ c₂ with _ | g
      · simp [h₁, h₂]
      · rcases h₃ : hexPairVal c₃ c₃ with _ | b
        · simp [h₁, h₂, h₃]
        · simp [h₁, h₂, h₃] at hhex
  · unfold hexFormB at hhex
    unfold hexCore
    rcases h₁ : hexPairVal c₁ c₁ with _ | r
    · simp [h₁]
    · rcases h₂ : hexPairVal c₂ c₂ with _ | g
      · simp [h₁, h₂]
      · rcases h₃ : hexPairVal c₃ c₃ with _ | b
        · simp [h₁, h₂, h₃]
        · rcases h₄ : hexPairVal c₄ c₄ with _ | a
          · simp [h₁, h₂, h₃, h₄]
          · simp [h₁, h₂, h₃, h₄] at hhex
  · exact commaBranch_black hcomma alpha
  · unfold hexFormB at hhex
    unfold hexCore
    rcases h₁ : hexPairVal c₁ c₂ with _ | r
    · simp [h₁]
    · rcases h₂ : hexPairVal c₃ c₄ with _ | g
      · simp [h₁, h₂]
      · rcases h₃ : hexPairVal c₅ c₆ with _ | b
        · simp [h₁, h₂, h₃]
        · simp [h₁, h₂, h₃] at hhex
  · exact commaBranch_black hcomma alpha
  · unfold hexFormB at hhex
    unfold hexCore
    rcases h₁ : hexPairVal c₁ c₂ with _ | r
    · simp [h₁]
    · rcases h₂ : hexPairVal c₃ c₄ with _ | g
      · simp [h₁, h₂]
      · rcases h₃ : hexPairVal c₅ c₆ with _ | b
        · simp [h₁, h₂, h₃]
        · rcases h₄ : hexPairVal c₇ c₈ with _ | a
          · simp [h₁, h₂, h₃, h₄]
          · simp [h₁, h₂, h₃, h₄] at hhex
  · exact commaBranch_black hcomma alpha

/-- C9 counterexample: `"#1234"` is none of the forms the claim enumerates
(`#RGB`, `#RRGGBB`, `#RRGGBBAA`, `rgba(...)`, comma/space-separated
numbers), yet `_hex_to_rgba` decodes it as short-form `#RGBA` instead of
returning opaque black. -/
theorem hex_decode_fallback_cex :
    specParseableB ("#1234".data) = false ∧
    hex_to_rgba (some ("#1234".data)) 255 ≠ (0, 0, 0, 255) := by
  constructor
  · decide
  · decide

/-- C9 amended: every ASCII input string rejected by all decoder branches
(rgba-prefixed with at least three number tokens; 3/4/6/8 characters after
an optional `#` with each component accepted by `int(·, 16)`; at least three
comma/space-separated float parts) decodes to opaque black `(0, 0, 0, 255)`
rather than raising.  The ASCII hypothesis marks the scope of the string
model: Python's `str.strip` also strips unicode whitespace and `int(·, 16)`
also accepts unicode decimal digits, so some non-ASCII inputs (an NBSP-padded
`#fff`, Arabic-Indic digit triples) decode instead of falling back. -/
theorem hex_decode_fallback_black :
    ∀ s₀ : PyStr, asciiStrB s₀ = true → parseableColorB s₀ = false →
      hex_to_rgba (some s₀) 255 = (0, 0, 0, 255) := by
  intro s₀ hascii hp
  unfold parseableColorB at hp
  by_cases he : s₀.isEmpty
  · simp only [hex_to_rgba, he, if_true]
  · rw [if_neg (by simp [he])] at hp
    simp only [Bool.or_eq_false_iff] at hp
    obtain ⟨hp1, hhex, hcomma⟩ := hp
    simp only [hex_to_rgba]
    rw [if_neg (by simp [he]), if_neg (by simp [hp1])]
    exact hexCore_black hhex hcomma 255

/-- Witness for C9 amended: the unparseable ASCII string `"hello world"`
decodes to opaque black. -/
theorem hex_decode_fallback_black_witness :
    hex_to_rgba (some ("hello world".data)) 255 = (0, 0, 0, 255) := by
  exact hex_decode_fallback_black ("hello world".data) (by decide) (by decide)

section RasterLemmas

/-- The byte value rendered by `hexUpChar` is read back by `hexDigitVal`. -/
lemma hexDigitVal_hexUpChar {d : ℕ} (h : d < 16) : hexDigitVal (hexUpChar d) = some d := by
  interval_cases d <;> decide

/-- Decoding the 6-digit render of three bytes recovers them (opaque). -/
lemma hex_to_rgba_hexStr6 {r g b : ℤ} (hr : 0 ≤ r ∧ r ≤ 255) (hg : 0 ≤ g ∧ g ≤ 255)
    (hb : 0 ≤ b ∧ b ≤ 255) :
    hex_to_rgba (some (hexStr6 r g b)) 255 = (r, g, b, 255) := by
  have e : hexStr6 r g b = '#' :: [hexUpChar (r.toNat / 16 % 16), hexUpChar (r.toNat % 16),
      hexUpChar (g.toNat / 16 % 16), hexUpChar (g.toNat % 16),
      hexUpChar (b.toNat / 16 % 16), hexUpChar (b.toNat % 16)] := rfl
  rw [e, hex_to_rgba_hex6 (hexDigitVal_hexUpChar (by omega)) (hexDigitVal_hexUpChar (by omega))
    (hexDigitVal_hexUpChar (by omega)) (hexDigitVal_hexUpChar (by omega))
    (hexDigitVal_hexUpChar (by omega)) (hexDigitVal_hexUpChar (by omega))]
  have er : 16 * ((r.toNat / 16 % 16 : ℕ) : ℤ) + ((r.toNat % 16 : ℕ) : ℤ) = r := by omega
  have eg : 16 * ((g.toNat / 16 % 16 : ℕ) : ℤ) + ((g.toNat % 16 : ℕ) : ℤ) = g := by omega
  have eb : 16 * ((b.toNat / 16 % 16 : ℕ) : ℤ) + ((b.toNat % 16 : ℕ) : ℤ) = b := by omega
  rw [er, eg, eb]

/-- Decoding the 8-digit render of four bytes recovers them. -/
lemma hex_to_rgba_hexStr8 {r g b a : ℤ} (hr : 0 ≤ r ∧ r ≤ 255) (hg : 0 ≤ g ∧ g ≤ 255)
    (hb : 0 ≤ b ∧ b ≤ 255) (ha : 0 ≤ a ∧ a ≤ 255) :
    hex_to_rgba (some (hexStr8 r g b a)) 255 = (r, g, b, a) := by
  have e : hexStr8 r g b a = '#' :: [hexUpChar (r.toNat / 16 % 16), hexUpChar (r.toNat % 16),
      hexUpChar (g.toNat / 16 % 16), hexUpChar (g.toNat % 16),
      hexUpChar (b.toNat / 16 % 16), hexUpChar (b.toNat % 16),
      hexUpChar (a.toNat / 16 % 16), hexUpChar (a.toNat % 16)] := rfl
  rw [e, hex_to_rgba_hex8 (hexDigitVal_hexUpChar (by omega)) (hexDigitVal_hexUpChar (by omega))
    (hexDigitVal_hexUpChar (by omega)) (hexDigitVal_hexUpChar (by omega))
    (hexDigitVal_hexUpChar (by omega)) (hexDigitVal_hexUpChar (by omega))
    (hexDigitVal_hexUpChar (by omega)) (hexDigitVal_hexUpChar (by omega))]
  have er : 16 * ((r.toNat / 16 % 16 : ℕ) : ℤ) + ((r.toNat % 16 : ℕ) : ℤ) = r := by omega
  have eg : 16 * ((g.toNat / 16 % 16 : ℕ) : ℤ) + ((g.toNat % 16 : ℕ) : ℤ) = g := by omega
  have eb : 16 * ((b.toNat / 16 % 16 : ℕ) : ℤ) + ((b.toNat % 16 : ℕ) : ℤ) = b := by omega
  have ea : 16 * ((a.toNat / 16 % 16 : ℕ) : ℤ) + ((a.toNat % 16 : ℕ) : ℤ) = a := by omega
  rw [er, eg, eb, ea]

/-- Every component produced by `cellRGBA` is a byte. -/
lemma cellRGBA_bytes (c : Cell) :
    0 ≤ (cellRGBA c).1 ∧ (cellRGBA c).1 ≤ 255 ∧
    0 ≤ (cellRGBA c).2.1 ∧ (cellRGBA c).2.1 ≤ 255 ∧
    0 ≤ (cellRGBA c).2.2.1 ∧ (cellRGBA c).2.2.1 ≤ 255 ∧
    0 ≤ (cellRGBA c).2.2.2 ∧ (cellRGBA c).2.2.2 ≤ 255 := by
  cases c with
  | none => simp [cellRGBA]
  | some s =>
    simp only [cellRGBA]
    rcases hex_to_rgba (some s) 255 with ⟨r, g, b, a⟩
    dsimp only
    unfold clamp8
    refine ⟨?_, ?_, ?_, ?_, ?_, ?_, ?_, ?_⟩ <;> split_ifs <;> omega

/-- Quantizing a byte quadruple and re-reading it through `cellRGBA` gives
back the quadruple, except that zero alpha collapses to all-transparent. -/
lemma cellRGBA_quantize {r g b a : ℤ} (h1 : 0 ≤ r) (h2 : r ≤ 255) (h3 : 0 ≤ g)
    (h4 : g ≤ 255) (h5 : 0 ≤ b) (h6 : b ≤ 255) (h7 : 0 ≤ a) (h8 : a ≤ 255) :
    cellRGBA (quantizePixel (r, g, b, a)) = if a = 0 then (0, 0, 0, 0) else (r, g, b, a) := by
  simp only [quantizePixel]
  by_cases ha0 : a = 0
  · simp [ha0, cellRGBA]
  · rw [if_neg ha0, if_neg ha0]
    by_cases ha255 : a = 255
    · rw [if_pos ha255]
      simp only [cellRGBA, hex_to_rgba_hexStr6 ⟨h1, h2⟩ ⟨h3, h4⟩ ⟨h5, h6⟩]
      unfold clamp8
      repeat rw [if_neg (by omega)]
      simp [ha255]
    · rw [if_neg ha255]
      simp only [cellRGBA, hex_to_rgba_hexStr8 ⟨h1, h2⟩ ⟨h3, h4⟩ ⟨h5, h6⟩ ⟨h7, h8⟩]
      unfold clamp8
      repeat rw [if_neg (by omega)]

/-- The cell-level map applied by one raster round-trip. -/
def quantizeCell (c : Cell) : Cell := quantizePixel (cellRGBA c)

/-- One raster round-trip per cell is idempotent. -/
lemma quantizeCell_idem (c : Cell) : quantizeCell (quantizeCell c) = quantizeCell c := by
  unfold quantizeCell
  have hby := cellRGBA_bytes c
  rcases hc : cellRGBA c with ⟨r, g, b, a⟩
  rw [hc] at hby
  dsimp only at hby
  obtain ⟨h1, h2, h3, h4, h5, h6, h7, h8⟩ := hby
  rw [cellRGBA_quantize h1 h2 h3 h4 h5 h6 h7 h8]
  by_cases ha : a = 0
  · rw [if_pos ha]
    simp [quantizePixel, ha]
  · rw [if_neg ha]

/-- Folding `max` over a constant list. -/
lemma foldr_max_const {n : ℕ} : ∀ l : List ℕ, (∀ x ∈ l, x = n) →
    l.foldr max 0 = if l.isEmpty then 0 else n := by
  intro l h
  induction l with
  | nil => rfl
  | cons a t ih =>
    simp only [List.foldr_cons, ih (fun x hx => h x (by simp [hx])), h a (by simp)]
    rcases t with _ | _
    · simp
    · simp

/-- The max row width used by `_pixels_to_image` on a well-formed grid. -/
lemma foldr_max_wf {n : ℕ} {g : Grid} (h : wellFormed n g) :
    (g.map List.length).foldr max 0 = n := by
  obtain ⟨hlen, hrows⟩ := h
  rw [foldr_max_const (g.map List.length) (by
    intro x hx
    simp only [List.mem_map] at hx
    obtain ⟨row, hrow, rfl⟩ := hx
    exact hrows row hrow)]
  rcases hg : g with _ | ⟨row, rows⟩
  · subst hg
    simp at hlen
    simp [hlen]
  · simp [hg] at hlen ⊢

end RasterLemmas


/-- A raster round-trip output is a well-formed `n × n` grid. -/
lemma image_to_pixels_wf (img : Img) (n : ℕ) : wellFormed n (image_to_pixels img n) := by
  constructor
  · simp [image_to_pixels]
  · intro row hrow
    simp only [image_to_pixels, List.mem_map] at hrow
    obtain ⟨y, _, rfl⟩ := hrow
    simp

/-- On a well-formed `n × n` grid, one raster round-trip acts cellwise by
`quantizeCell`. -/
lemma raster_round_cellwise {n : ℕ} {g : Grid} (h : wellFormed n g) :
    image_to_pixels (pixels_to_image g) n =
      (List.range n).map (fun y => (List.range n).map (fun x =>
        quantizeCell (((g.get? y).bind (fun row => row.get? x)).getD none))) := by
  obtain ⟨hlen, hrows⟩ := h
  unfold image_to_pixels
  apply List.map_congr_left
  intro y hy
  apply List.map_congr_left
  intro x hx
  have hyn : y < n := List.mem_range.mp hy
  have hxn : x < n := List.mem_range.mp hx
  have hrow : g.get? y = some (g.get ⟨y, by omega⟩) := List.get?_eq_get (by omega)
  have hrl : (g.get ⟨y, by omega⟩).length = n := hrows _ (List.get_mem ..)
  have hcell : (g.get ⟨y, by omega⟩).get? x
      = some ((g.get ⟨y, by omega⟩).get ⟨x, by omega⟩) := List.get?_eq_get (by omega)
  have himg : pixels_to_image g = g.map (fun row =>
      (List.range n).map (fun x =>
        match row.get? x with
        | some c => cellRGBA c
        | none => (255, 255, 255, 0))) := by
    unfold pixels_to_image
    rw [foldr_max_wf ⟨hlen, hrows⟩]
  rw [himg]
  unfold getPx quantizeCell
  rw [List.get?_map, hrow]
  have hyg : y < g.length := by omega
  have hxg : x < (g.get ⟨y, hyg⟩).length := by rw [hrl]; exact hxn
  have hcell3 : g[y][x]? = some ((g.get ⟨y, hyg⟩).get ⟨x, hxg⟩) :=
    List.getElem?_eq_getElem hxg
  simp [List.getElem?_range hxn, hcell3]

/-- C4 amended: on an exactly `size × size` grid the raster round-trip
`_image_to_pixels ∘ _pixels_to_image` is idempotent — a second round-trip
changes nothing (the first normalizes each cell to `None`, an uppercase
6-digit hex, or an uppercase 8-digit hex). -/
theorem raster_round_trip_idempotent :
    ∀ (g : Grid) (n : ℕ), wellFormed n g →
      image_to_pixels (pixels_to_image (image_to_pixels (pixels_to_image g) n)) n
        = image_to_pixels (pixels_to_image g) n := by
  intro g n h
  have h2 := image_to_pixels_wf (pixels_to_image g) n
  rw [raster_round_cellwise h2, raster_round_cellwise h]
  apply List.map_congr_left
  intro y hy
  apply List.map_congr_left
  intro x hx
  have hyn : y < n := List.mem_range.mp hy
  have hxn : x < n := List.mem_range.mp hx
  simp [List.getElem?_map, List.getElem?_range, hyn, hxn, quantizeCell_idem]

/-- C4 counterexample: the round-trip is not the identity on every
`size × size` grid — the 1×1 grid holding `"#fff"` comes back as
`"#FFFFFF"`. -/
theorem raster_round_trip_cex :
    wellFormed 1 [[some ("#fff".data)]] ∧
    image_to_pixels (pixels_to_image [[some ("#fff".data)]]) 1 ≠ [[some ("#fff".data)]] := by
  constructor
  · refine ⟨rfl, ?_⟩
    intro row hrow
    simp only [List.mem_singleton] at hrow
    subst hrow
    rfl
  · decide

/-- Witness for C4 amended: idempotence evaluated on a concrete well-formed
2×2 grid mixing shorthand hex, `None`, bare hex and partial alpha. -/
theorem raster_round_trip_idempotent_witness :
    image_to_pixels (pixels_to_image (image_to_pixels (pixels_to_image
        [[some ("#fff".data), none], [some ("abc".data), some ("#12345680".data)]]) 2)) 2
      = image_to_pixels (pixels_to_image
        [[some ("#fff".data), none], [some ("abc".data), some ("#12345680".data)]]) 2 := by
  apply raster_round_trip_idempotent
  refine ⟨rfl, ?_⟩
  intro row hrow
  simp only [List.mem_cons, List.mem_singleton] at hrow
  rcases hrow with rfl | rfl | h
  · rfl
  · rfl
  · simp at h

section FloodLemmas

/-- Two grids with the same row count and row lengths. -/
def sameShape (g₁ g₂ : Grid) : Prop :=
  g₁.length = g₂.length ∧
    ∀ i : ℕ, (g₁[i]?).map List.length = (g₂[i]?).map List.length

lemma sameShape_refl (g : Grid) : sameShape g g := ⟨rfl, fun _ => rfl⟩

lemma sameShape_trans {g₁ g₂ g₃ : Grid} (h₁ : sameShape g₁ g₂) (h₂ : sameShape g₂ g₃) :
    sameShape g₁ g₃ := ⟨h₁.1.trans h₂.1, fun i => (h₁.2 i).trans (h₂.2 i)⟩

lemma getElem?_ne_none_lt {α : Type} {l : List α} {i : ℕ} {a : α}
    (h : l[i]? = some a) : i < l.length := by
  by_contra hge
  rw [List.getElem?_eq_none (by omega)] at h
  exact Option.noConfusion h

lemma setCell_sameShape (g : Grid) (x y : ℤ) (v : Cell) : sameShape (setCell g x y v) g := by
  unfold setCell
  split
  · rcases hr : g.get? y.toNat with _ | row
    · exact sameShape_refl g
    · rw [List.get?_eq_getElem?] at hr
      have hlt : y.toNat < g.length := getElem?_ne_none_lt hr
      refine ⟨by simp, fun i => ?_⟩
      by_cases hi : i = y.toNat
      · rw [hi, List.getElem?_set_eq hlt, hr]
        simp
      · rw [List.getElem?_set_ne (fun hc => hi hc.symm)]
  · exact sameShape_refl g

lemma cellAt_setCell_self {g : Grid} {x y : ℤ} {v c : Cell}
    (h : cellAt g x y = some c) : cellAt (setCell g x y v) x y = some v := by
  unfold cellAt at h ⊢
  by_cases hxy : 0 ≤ x ∧ 0 ≤ y
  · rw [if_pos hxy] at h ⊢
    unfold setCell
    rw [if_pos hxy]
    rcases hr : g.get? y.toNat with _ | row
    · rw [List.get?_eq_getElem?] at hr
      rw [hr] at h
      exact Option.noConfusion h
    · rw [List.get?_eq_getElem?] at hr
      rw [hr] at h
      simp only [Option.some_bind] at h
      have hylt : y.toNat < g.length := getElem?_ne_none_lt hr
      have hxlt : x.toNat < row.length := getElem?_ne_none_lt h
      rw [List.getElem?_set_eq hylt]
      simp only [Option.some_bind]
      rw [List.getElem?_set_eq hxlt]
  · rw [if_neg hxy] at h
    exact Option.noConfusion h

lemma cellAt_setCell_ne {g : Grid} {x y : ℤ} {v : Cell} {x' y' : ℤ}
    (h : ¬(x' = x ∧ y' = y)) : cellAt (setCell g x y v) x' y' = cellAt g x' y' := by
  unfold cellAt setCell
  by_cases hxy : 0 ≤ x ∧ 0 ≤ y
  · rw [if_pos hxy]
    rcases hr : g.get? y.toNat with _ | row
    · rfl
    · rw [List.get?_eq_getElem?] at hr
      have hylt : y.toNat < g.length := getElem?_ne_none_lt hr
      by_cases hxy' : 0 ≤ x' ∧ 0 ≤ y'
      · rw [if_pos hxy', if_pos hxy']
        by_cases hyy : y' = y
        · have hx : x' ≠ x := fun hc => h ⟨hc, hyy⟩
          have hxt : x'.toNat ≠ x.toNat := by omega
          have hyt : y'.toNat = y.toNat := by rw [hyy]
          rw [hyt, List.getElem?_set_eq hylt, hr]
          simp only [Option.some_bind]
          rw [List.getElem?_set_ne (fun hc => hxt hc.symm)]
        · have hyt : y'.toNat ≠ y.toNat := by omega
          rw [List.getElem?_set_ne (fun hc => hyt hc.symm)]
      · rw [if_neg hxy', if_neg hxy']
  · rw [if_neg hxy]

/-- Two grids of the same shape agreeing on every cell are equal. -/
lemma grid_eq_of_cellAt {g₁ g₂ : Grid} (hs : sameShape g₁ g₂)
    (hc : ∀ x y : ℕ, cellAt g₁ (x : ℤ) (y : ℤ) = cellAt g₂ (x : ℤ) (y : ℤ)) : g₁ = g₂ := by
  apply List.ext_getElem?_iff.mpr
  intro i
  have hlen := hs.2 i
  rcases hr₁ : g₁[i]? with _ | row₁ <;> rcases hr₂ : g₂[i]? with _ | row₂
  · rfl
  · rw [hr₁, hr₂] at hlen
    exact Option.noConfusion hlen
  · rw [hr₁, hr₂] at hlen
    exact Option.noConfusion hlen
  · congr 1
    apply List.ext_getElem?_iff.mpr
    intro j
    have hcell := hc j i
    unfold cellAt at hcell
    rw [if_pos ⟨Int.natCast_nonneg _, Int.natCast_nonneg _⟩] at hcell
    simp only [Int.toNat_natCast] at hcell
    rw [hr₁, hr₂] at hcell
    simpa using hcell

end FloodLemmas

section FloodMain

/-- Unfold a successful match: bounds, cell and distance. -/
lemma matchesB_true_iff (g : Grid) (n : ℕ) (target : Cell) (tol : ℤ) (x y : ℤ) :
    matchesB g n target tol (x, y) = true ↔
      (0 ≤ x ∧ x < n ∧ 0 ≤ y ∧ y < n ∧
        ∃ c, cellAt g x y = some c ∧ (color_distance c target : ℤ) ≤ tol) := by
  unfold matchesB inBoundsB
  rcases hc : cellAt g x y with _ | c
  · simp [hc]
  · simp [hc]
    tauto

lemma reachesFrom_step {g : Grid} {n : ℕ} {target : Cell} {tol : ℤ} {seed p q : Coord}
    (hp : reachesFrom g n target tol seed p)
    (hq : matchesB g n target tol q = true) (hadj : adjStep p q) :
    reachesFrom g n target tol seed q :=
  ⟨hq, hp.2.tail ⟨hp.1, hq, hadj⟩⟩

/-- Neighbors of an in-bounds cell stay inside the flood box. -/
lemma neighbor_mem_floodBox {n : ℕ} {seed : Coord} {x y : ℤ}
    (hx0 : 0 ≤ x) (hy0 : 0 ≤ y) (hxn : x < n) (hyn : y < n) {q : Coord}
    (hadj : adjStep (x, y) q) : q ∈ floodBox n seed := by
  unfold floodBox
  apply Finset.mem_insert_of_mem
  rcases hadj with rfl | rfl | rfl | rfl <;>
    exact Finset.mem_product.mpr
      ⟨Finset.mem_Icc.mpr ⟨by omega, by omega⟩, Finset.mem_Icc.mpr ⟨by omega, by omega⟩⟩

/-- With an empty stack, the invariants force the visited matched set to be
exactly the reachable component, giving the final grid characterization. -/
lemma floodLoopF_nil_spec (g₀ : Grid) (n : ℕ) (target repl : Cell) (tol : ℤ)
    (seed : Coord) (g : Grid) (vis : Finset Coord)
    (hpos : ∀ p : Coord, p ∈ vis → matchesB g₀ n target tol p = true →
      cellAt g p.1 p.2 = some repl)
    (hneg : ∀ p : Coord, ¬(p ∈ vis ∧ matchesB g₀ n target tol p = true) →
      cellAt g p.1 p.2 = cellAt g₀ p.1 p.2)
    (hsound : ∀ p ∈ vis, matchesB g₀ n target tol p = true →
      reachesFrom g₀ n target tol seed p)
    (hfront : ∀ p ∈ vis, matchesB g₀ n target tol p = true →
      ∀ q : Coord, adjStep p q → q ∈ vis)
    (hseed : seed ∈ vis) :
    (∀ p : Coord, reachesFrom g₀ n target tol seed p → cellAt g p.1 p.2 = some repl) ∧
    (∀ p : Coord, ¬reachesFrom g₀ n target tol seed p →
      cellAt g p.1 p.2 = cellAt g₀ p.1 p.2) := by
  have hcover : ∀ p : Coord,
      Relation.ReflTransGen
        (fun a b => matchesB g₀ n target tol a = true ∧
          matchesB g₀ n target tol b = true ∧ adjStep a b) seed p →
      matchesB g₀ n target tol p = true → p ∈ vis := by
    intro p hrtg
    induction hrtg with
    | refl => intro _; exact hseed
    | tail h₁ h₂ ih =>
      obtain ⟨hmb, -, hadj⟩ := h₂
      intro _
      exact hfront _ (ih hmb) hmb _ hadj
  constructor
  · intro p hp
    exact hpos p (hcover p hp.2 hp.1) hp.1
  · intro p hnp
    apply hneg
    rintro ⟨hv, hm⟩
    exact hnp (hsound p hv hm)

end FloodMain

section FloodStep

variable (n : ℕ) (target repl : Cell) (tol : ℤ) (fuel : ℕ) (g : Grid)
variable (x y : ℤ) (rest : List Coord) (vis : Finset Coord)

lemma floodLoopF_nil (anyfuel : ℕ) :
    floodLoopF n target repl tol anyfuel g [] vis = some g := by
  cases anyfuel <;> rfl

lemma floodLoopF_cons_visited (hv : (x, y) ∈ vis) :
    floodLoopF n target repl tol (fuel + 1) g ((x, y) :: rest) vis
      = floodLoopF n target repl tol fuel g rest vis := by
  simp [floodLoopF, hv]

lemma floodLoopF_cons_oob (hv : (x, y) ∉ vis)
    (hob : x < 0 ∨ y < 0 ∨ (n : ℤ) ≤ x ∨ (n : ℤ) ≤ y) :
    floodLoopF n target repl tol (fuel + 1) g ((x, y) :: rest) vis
      = floodLoopF n target repl tol fuel g rest (insert (x, y) vis) := by
  simp [floodLoopF, hv, hob]

lemma floodLoopF_cons_none (hv : (x, y) ∉ vis)
    (hob : ¬(x < 0 ∨ y < 0 ∨ (n : ℤ) ≤ x ∨ (n : ℤ) ≤ y))
    (hc : cellAt g x y = none) :
    floodLoopF n target repl tol (fuel + 1) g ((x, y) :: rest) vis
      = floodLoopF n target repl tol fuel g rest (insert (x, y) vis) := by
  simp [floodLoopF, hv, hob, hc]

lemma floodLoopF_cons_nomatch {cur : Cell} (hv : (x, y) ∉ vis)
    (hob : ¬(x < 0 ∨ y < 0 ∨ (n : ℤ) ≤ x ∨ (n : ℤ) ≤ y))
    (hc : cellAt g x y = some cur)
    (hd : ¬((color_distance cur target : ℤ) ≤ tol)) :
    floodLoopF n target repl tol (fuel + 1) g ((x, y) :: rest) vis
      = floodLoopF n target repl tol fuel g rest (insert (x, y) vis) := by
  simp [floodLoopF, hv, hob, hc, hd]

lemma floodLoopF_cons_match {cur : Cell} (hv : (x, y) ∉ vis)
    (hob : ¬(x < 0 ∨ y < 0 ∨ (n : ℤ) ≤ x ∨ (n : ℤ) ≤ y))
    (hc : cellAt g x y = some cur)
    (hd : (color_distance cur target : ℤ) ≤ tol) :
    floodLoopF n target repl tol (fuel + 1) g ((x, y) :: rest) vis
      = floodLoopF n target repl tol fuel (setCell g x y repl)
          ((x, y - 1) :: (x, y + 1) :: (x - 1, y) :: (x + 1, y) :: rest)
          (insert (x, y) vis) := by
  simp [floodLoopF, hv, hob, hc, hd]

end FloodStep

/-- Popping a non-matching coordinate into the visited set preserves every
loop invariant. -/
lemma skip_invariants (g₀ : Grid) (n : ℕ) (target repl : Cell) (tol : ℤ)
    (seed : Coord) (g : Grid) {x y : ℤ} {rest : List Coord} {vis : Finset Coord}
    (hnm : matchesB g₀ n target tol (x, y) ≠ true)
    (hstackbox : ∀ p ∈ (x, y) :: rest, p ∈ floodBox n seed)
    (hvisbox : vis ⊆ floodBox n seed)
    (hpos : ∀ p : Coord, p ∈ vis → matchesB g₀ n target tol p = true →
      cellAt g p.1 p.2 = some repl)
    (hneg : ∀ p : Coord, ¬(p ∈ vis ∧ matchesB g₀ n target tol p = true) →
      cellAt g p.1 p.2 = cellAt g₀ p.1 p.2)
    (hsoundS : ∀ p ∈ (x, y) :: rest, matchesB g₀ n target tol p = true →
      reachesFrom g₀ n target tol seed p)
    (hsoundV : ∀ p ∈ vis, matchesB g₀ n target tol p = true →
      reachesFrom g₀ n target tol seed p)
    (hfront : ∀ p ∈ vis, matchesB g₀ n target tol p = true →
      ∀ q : Coord, adjStep p q → q ∈ vis ∨ q ∈ (x, y) :: rest)
    (hseed : seed ∈ vis ∨ seed ∈ (x, y) :: rest) :
    (∀ p ∈ rest, p ∈ floodBox n seed) ∧
    (insert (x, y) vis ⊆ floodBox n seed) ∧
    (∀ p : Coord, p ∈ insert (x, y) vis → matchesB g₀ n target tol p = true →
      cellAt g p.1 p.2 = some repl) ∧
    (∀ p : Coord, ¬(p ∈ insert (x, y) vis ∧ matchesB g₀ n target tol p = true) →
      cellAt g p.1 p.2 = cellAt g₀ p.1 p.2) ∧
    (∀ p ∈ rest, matchesB g₀ n target tol p = true →
      reachesFrom g₀ n target tol seed p) ∧
    (∀ p ∈ insert (x, y) vis, matchesB g₀ n target tol p = true →
      reachesFrom g₀ n target tol seed p) ∧
    (∀ p ∈ insert (x, y) vis, matchesB g₀ n target tol p = true →
      ∀ q : Coord, adjStep p q → q ∈ insert (x, y) vis ∨ q ∈ rest) ∧
    (seed ∈ insert (x, y) vis ∨ seed ∈ rest) := by
  refine ⟨?_, ?_, ?_, ?_, ?_, ?_, ?_, ?_⟩
  · exact fun p hp => hstackbox p (List.mem_cons_of_mem _ hp)
  · exact Finset.insert_subset (hstackbox _ (List.mem_cons_self _ _)) hvisbox
  · intro p hp hm
    rcases Finset.mem_insert.mp hp with rfl | hp'
    · exact absurd hm hnm
    · exact hpos p hp' hm
  · intro p hnp
    apply hneg
    rintro ⟨hpv, hm⟩
    exact hnp ⟨Finset.mem_insert_of_mem hpv, hm⟩
  · exact fun p hp => hsoundS p (List.mem_cons_of_mem _ hp)
  · intro p hp hm
    rcases Finset.mem_insert.mp hp with rfl | hp'
    · exact absurd hm hnm
    · exact hsoundV p hp' hm
  · intro p hp hm q hq
    rcases Finset.mem_insert.mp hp with rfl | hp'
    · exact absurd hm hnm
    · rcases hfront p hp' hm q hq with h | h
      · exact Or.inl (Finset.mem_insert_of_mem h)
      · rcases List.mem_cons.mp h with heq | h'
        · exact Or.inl (heq ▸ Finset.mem_insert_self _ _)
        · exact Or.inr h'
  · rcases hseed with h | h
    · exact Or.inl (Finset.mem_insert_of_mem h)
    · rcases List.mem_cons.mp h with heq | h'
      · exact Or.inl (heq ▸ Finset.mem_insert_self _ _)
      · exact Or.inr h'

/-- Main invariant lemma for the flood fill stack loop: with sufficient
fuel, the loop completes and produces the grid whose reachable matching
component (computed on the original grid) is replaced, everything else
untouched. -/
lemma floodLoopF_spec (g₀ : Grid) (n : ℕ) (target repl : Cell) (tol : ℤ) (seed : Coord) :
    ∀ (fuel : ℕ) (g : Grid) (stack : List Coord) (vis : Finset Coord),
      4 * ((floodBox n seed).card - vis.card) + stack.length ≤ fuel →
      (∀ p ∈ stack, p ∈ floodBox n seed) →
      vis ⊆ floodBox n seed →
      sameShape g g₀ →
      (∀ p : Coord, p ∈ vis → matchesB g₀ n target tol p = true →
        cellAt g p.1 p.2 = some repl) →
      (∀ p : Coord, ¬(p ∈ vis ∧ matchesB g₀ n target tol p = true) →
        cellAt g p.1 p.2 = cellAt g₀ p.1 p.2) →
      (∀ p ∈ stack, matchesB g₀ n target tol p = true →
        reachesFrom g₀ n target tol seed p) →
      (∀ p ∈ vis, matchesB g₀ n target tol p = true →
        reachesFrom g₀ n target tol seed p) →
      (∀ p ∈ vis, matchesB g₀ n target tol p = true →
        ∀ q : Coord, adjStep p q → q ∈ vis ∨ q ∈ stack) →
      (seed ∈ vis ∨ seed ∈ stack) →
      ∃ g', floodLoopF n target repl tol fuel g stack vis = some g' ∧
        sameShape g' g₀ ∧
        (∀ p : Coord, reachesFrom g₀ n target tol seed p → cellAt g' p.1 p.2 = some repl) ∧
        (∀ p : Coord, ¬reachesFrom g₀ n target tol seed p →
          cellAt g' p.1 p.2 = cellAt g₀ p.1 p.2) := by
  intro fuel
  induction fuel with
  | zero =>
    intro g stack vis hmeas hstackbox hvisbox hshape hpos hneg hsoundS hsoundV hfront hseed
    cases stack with
    | nil =>
      obtain ⟨c1, c2⟩ := floodLoopF_nil_spec g₀ n target repl tol seed g vis hpos hneg hsoundV
        (fun p hp hm q hq => by
          rcases hfront p hp hm q hq with h | h
          · exact h
          · simp at h)
        (by
          rcases hseed with h | h
          · exact h
          · simp at h)
      exact ⟨g, floodLoopF_nil .., hshape, c1, c2⟩
    | cons hd tl =>
      exfalso
      simp only [List.length_cons] at hmeas
      omega
  | succ fuel ih =>
    intro g stack vis hmeas hstackbox hvisbox hshape hpos hneg hsoundS hsoundV hfront hseed
    cases stack with
    | nil =>
      obtain ⟨c1, c2⟩ := floodLoopF_nil_spec g₀ n target repl tol seed g vis hpos hneg hsoundV
        (fun p hp hm q hq => by
          rcases hfront p hp hm q hq with h | h
          · exact h
          · simp at h)
        (by
          rcases hseed with h | h
          · exact h
          · simp at h)
      exact ⟨g, floodLoopF_nil .., hshape, c1, c2⟩
    | cons hd tl =>
      obtain ⟨x, y⟩ := hd
      simp only [List.length_cons] at hmeas
      by_cases hv : (x, y) ∈ vis
      · rw [floodLoopF_cons_visited n target repl tol fuel g x y tl vis hv]
        apply ih g tl vis (by omega)
          (fun p hp => hstackbox p (List.mem_cons_of_mem _ hp)) hvisbox hshape hpos hneg
          (fun p hp => hsoundS p (List.mem_cons_of_mem _ hp)) hsoundV
        · intro p hp hm q hq
          rcases hfront p hp hm q hq with h | h
          · exact Or.inl h
          · rcases List.mem_cons.mp h with heq | h'
            · exact Or.inl (heq ▸ hv)
            · exact Or.inr h'
        · rcases hseed with h | h
          · exact Or.inl h
          · rcases List.mem_cons.mp h with heq | h'
            · exact Or.inl (heq ▸ hv)
            · exact Or.inr h'
      · have hbox : (x, y) ∈ floodBox n seed := hstackbox _ (List.mem_cons_self _ _)
        have hcard : (insert (x, y) vis).card = vis.card + 1 :=
          Finset.card_insert_of_not_mem hv
        have hsub : insert (x, y) vis ⊆ floodBox n seed := Finset.insert_subset hbox hvisbox
        have hlt : vis.card + 1 ≤ (floodBox n seed).card := by
          rw [← hcard]
          exact Finset.card_le_card hsub
        by_cases hob : x < 0 ∨ y < 0 ∨ (n : ℤ) ≤ x ∨ (n : ℤ) ≤ y
        · have hnm : matchesB g₀ n target tol (x, y) ≠ true := by
            intro hm
            obtain ⟨h1, h2, h3, h4, -⟩ := (matchesB_true_iff g₀ n target tol x y).mp hm
            omega
          rw [floodLoopF_cons_oob n target repl tol fuel g x y tl vis hv hob]
          obtain ⟨i1, i2, i3, i4, i5, i6, i7, i8⟩ := skip_invariants g₀ n target repl tol
            seed g hnm hstackbox hvisbox hpos hneg hsoundS hsoundV hfront hseed
          exact ih g tl (insert (x, y) vis) (by rw [hcard]; omega) i1 i2 hshape i3 i4 i5 i6 i7 i8
        · rcases hcell : cellAt g x y with _ | cur
          · have hg₀ : cellAt g₀ x y = none := by
              have hne := hneg (x, y) (fun hc => hv hc.1)
              dsimp only at hne
              rw [hcell] at hne
              exact hne.symm
            have hnm : matchesB g₀ n target tol (x, y) ≠ true := by
              intro hm
              obtain ⟨-, -, -, -, c, hc, -⟩ := (matchesB_true_iff g₀ n target tol x y).mp hm
              rw [hg₀] at hc
              exact Option.noConfusion hc
            rw [floodLoopF_cons_none n target repl tol fuel g x y tl vis hv hob hcell]
            obtain ⟨i1, i2, i3, i4, i5, i6, i7, i8⟩ := skip_invariants g₀ n target repl tol
              seed g hnm hstackbox hvisbox hpos hneg hsoundS hsoundV hfront hseed
            exact ih g tl (insert (x, y) vis) (by rw [hcard]; omega) i1 i2 hshape i3 i4 i5 i6 i7 i8
          · have hg₀c : cellAt g₀ x y = some cur := by
              have hne := hneg (x, y) (fun hc => hv hc.1)
              dsimp only at hne
              rw [hcell] at hne
              exact hne.symm
            by_cases hdist : (color_distance cur target : ℤ) ≤ tol
            · push_neg at hob
              obtain ⟨hx0, hy0, hxn, hyn⟩ := hob
              have hob' : ¬(x < 0 ∨ y < 0 ∨ (n : ℤ) ≤ x ∨ (n : ℤ) ≤ y) := by
                push_neg
                exact ⟨hx0, hy0, hxn, hyn⟩
              have hm : matchesB g₀ n target tol (x, y) = true :=
                (matchesB_true_iff g₀ n target tol x y).mpr
                  ⟨hx0, hxn, hy0, hyn, cur, hg₀c, hdist⟩
              have hreach : reachesFrom g₀ n target tol seed (x, y) :=
                hsoundS _ (List.mem_cons_self _ _) hm
              rw [floodLoopF_cons_match n target repl tol fuel g x y tl vis hv hob' hcell hdist]
              apply ih (setCell g x y repl)
                ((x, y - 1) :: (x, y + 1) :: (x - 1, y) :: (x + 1, y) :: tl)
                (insert (x, y) vis) ?_ ?_ hsub ?_ ?_ ?_ ?_ ?_ ?_ ?_
              · simp only [List.length_cons]
                rw [hcard]
                omega
              · intro p hp
                simp only [List.mem_cons] at hp
                rcases hp with rfl | rfl | rfl | rfl | hp
                · exact neighbor_mem_floodBox hx0 hy0 hxn hyn (Or.inr (Or.inr (Or.inr rfl)))
                · exact neighbor_mem_floodBox hx0 hy0 hxn hyn (Or.inr (Or.inr (Or.inl rfl)))
                · exact neighbor_mem_floodBox hx0 hy0 hxn hyn (Or.inr (Or.inl rfl))
                · exact neighbor_mem_floodBox hx0 hy0 hxn hyn (Or.inl rfl)
                · exact hstackbox p (List.mem_cons_of_mem _ hp)
              · exact sameShape_trans (setCell_sameShape g x y repl) hshape
              · intro p hp hm'
                rcases Finset.mem_insert.mp hp with rfl | hp'
                · exact cellAt_setCell_self hcell
                · have hne : ¬(p.1 = x ∧ p.2 = y) := by
                    rintro ⟨h1, h2⟩
                    apply hv
                    obtain ⟨p1, p2⟩ := p
                    dsimp only at h1 h2
                    subst h1
                    subst h2
                    exact hp'
                  rw [cellAt_setCell_ne hne]
                  exact hpos p hp' hm'
              · intro p hnp
                have hne : ¬(p.1 = x ∧ p.2 = y) := by
                  rintro ⟨h1, h2⟩
                  apply hnp
                  obtain ⟨p1, p2⟩ := p
                  dsimp only at h1 h2
                  subst h1
                  subst h2
                  exact ⟨Finset.mem_insert_self _ _, hm⟩
                rw [cellAt_setCell_ne hne]
                apply hneg
                rintro ⟨hpv, hm'⟩
                exact hnp ⟨Finset.mem_insert_of_mem hpv, hm'⟩
              · intro p hp hm'
                simp only [List.mem_cons] at hp
                rcases hp with rfl | rfl | rfl | rfl | hp
                · exact reachesFrom_step hreach hm' (Or.inr (Or.inr (Or.inr rfl)))
                · exact reachesFrom_step hreach hm' (Or.inr (Or.inr (Or.inl rfl)))
                · exact reachesFrom_step hreach hm' (Or.inr (Or.inl rfl))
                · exact reachesFrom_step hreach hm' (Or.inl rfl)
                · exact hsoundS p (List.mem_cons_of_mem _ hp) hm'
              · intro p hp hm'
                rcases Finset.mem_insert.mp hp with rfl | hp'
                · exact hreach
                · exact hsoundV p hp' hm'
              · intro p hp hm' q hq
                rcases Finset.mem_insert.mp hp with rfl | hp'
                · right
                  simp only [List.mem_cons]
                  rcases hq with rfl | rfl | rfl | rfl
                  · exact Or.inr (Or.inr (Or.inr (Or.inl rfl)))
                  · exact Or.inr (Or.inr (Or.inl rfl))
                  · exact Or.inr (Or.inl rfl)
                  · exact Or.inl rfl
                · rcases hfront p hp' hm' q hq with h | h
                  · exact Or.inl (Finset.mem_insert_of_mem h)
                  · rcases List.mem_cons.mp h with heq | h'
                    · exact Or.inl (heq ▸ Finset.mem_insert_self _ _)
                    · right
                      simp only [List.mem_cons]
                      exact Or.inr (Or.inr (Or.inr (Or.inr h')))
              · rcases hseed with h | h
                · exact Or.inl (Finset.mem_insert_of_mem h)
                · rcases List.mem_cons.mp h with heq | h'
                  · exact Or.inl (heq ▸ Finset.mem_insert_self _ _)
                  · right
                    simp only [List.mem_cons]
                    exact Or.inr (Or.inr (Or.inr (Or.inr h')))
            · have hnm : matchesB g₀ n target tol (x, y) ≠ true := by
                intro hm
                obtain ⟨-, -, -, -, c, hc, hd⟩ := (matchesB_true_iff g₀ n target tol x y).mp hm
                rw [hg₀c] at hc
                injection hc with hcc
                subst hcc
                exact hdist hd
              rw [floodLoopF_cons_nomatch n target repl tol fuel g x y tl vis hv hob hcell hdist]
              obtain ⟨i1, i2, i3, i4, i5, i6, i7, i8⟩ := skip_invariants g₀ n target repl tol
                seed g hnm hstackbox hvisbox hpos hneg hsoundS hsoundV hfront hseed
              exact ih g tl (insert (x, y) vis) (by rw [hcard]; omega) i1 i2 hshape i3 i4 i5 i6 i7 i8

/-- The loop invariants hold at `_flood_fill`'s initial state, so the loop
completes on the provided fuel with the component-replacement result. -/
lemma floodLoopF_initial (g₀ : Grid) (n : ℕ) (target repl : Cell) (tol : ℤ) (sx sy : ℤ) :
    ∃ g', floodLoopF n target repl tol (floodFillFuel n (sx, sy)) g₀ [(sx, sy)] ∅ = some g' ∧
      sameShape g' g₀ ∧
      (∀ p : Coord, reachesFrom g₀ n target tol (sx, sy) p → cellAt g' p.1 p.2 = some repl) ∧
      (∀ p : Coord, ¬reachesFrom g₀ n target tol (sx, sy) p →
        cellAt g' p.1 p.2 = cellAt g₀ p.1 p.2) := by
  apply floodLoopF_spec g₀ n target repl tol (sx, sy) (floodFillFuel n (sx, sy)) g₀
    [(sx, sy)] ∅
  · simp [floodFillFuel]
  · intro p hp
    simp only [List.mem_singleton] at hp
    subst hp
    exact Finset.mem_insert_self _ _
  · exact Finset.empty_subset _
  · exact sameShape_refl g₀
  · intro p hp
    simp at hp
  · intro p _
    rfl
  · intro p hp hm
    simp only [List.mem_singleton] at hp
    subst hp
    exact ⟨hm, Relation.ReflTransGen.refl⟩
  · intro p hp
    simp at hp
  · intro p hp
    simp at hp
  · right
    simp

/-- A coordinate reachable from the seed forces the seed itself to match. -/
lemma reachesFrom_seed_matches {g : Grid} {n : ℕ} {target : Cell} {tol : ℤ}
    {seed p : Coord} (h : reachesFrom g n target tol seed p) :
    matchesB g n target tol seed = true := by
  obtain ⟨hp, hrtg⟩ := h
  rcases Relation.ReflTransGen.cases_head hrtg with rfl | ⟨c, hstep, -⟩
  · exact hp
  · exact hstep.1

/-- C10.  `_flood_fill`'s stack loop terminates on every input — including
out-of-bounds seeds and arbitrary tolerances — within the fuel bound
`4 * |box| + 1`, where the box is the grid enlarged by one cell; every
popped coordinate is visited at most once and only in-bounds matching cells
push their four neighbors. -/
theorem flood_fill_terminates :
    ∀ (pixels : Grid) (size : ℕ) (sx sy : ℤ) (target repl : Cell) (tol : ℤ),
      ∃ g', floodLoopF size target repl tol (floodFillFuel size (sx, sy))
        pixels [(sx, sy)] ∅ = some g' := by
  intro pixels size sx sy target repl tol
  obtain ⟨g', h, -⟩ := floodLoopF_initial pixels size target repl tol sx sy
  exact ⟨g', h⟩

/-- C1 amended.  For grids whose cells, and a target, in hex-or-`None` form
(`hexCellB`, where the distance model is exact integer arithmetic): provided
the normalized replacement differs from the normalized target, after
`_flood_fill` every cell 4-connected-reachable from the seed through cells
matching the normalized target within the clamped tolerance holds the
replacement color, and every other cell is unchanged; whenever the seed
itself does not match, the whole grid is returned unchanged (this also
covers the early-return case). -/
theorem flood_fill_containment :
    ∀ (pixels : Grid) (size : ℕ) (sx sy : ℤ) (targetColor replacementColor : Cell)
      (tolerance : ℤ),
      (∀ row ∈ pixels, ∀ c ∈ row, hexCellB c = true) →
      hexCellB targetColor = true →
      (normColor replacementColor ≠ normColor targetColor →
        ∀ x y : ℤ,
          (reachesFrom pixels size (normColor targetColor) (clampTol tolerance)
              (sx, sy) (x, y) →
            cellAt (flood_fill pixels size sx sy targetColor replacementColor tolerance) x y
              = some (normColor replacementColor)) ∧
          (¬reachesFrom pixels size (normColor targetColor) (clampTol tolerance)
              (sx, sy) (x, y) →
            cellAt (flood_fill pixels size sx sy targetColor replacementColor tolerance) x y
              = cellAt pixels x y)) ∧
      (matchesB pixels size (normColor targetColor) (clampTol tolerance) (sx, sy) ≠ true →
        flood_fill pixels size sx sy targetColor replacementColor tolerance = pixels) := by
  intro pixels size sx sy targetColor replacementColor tolerance hcells htarget
  have hff : flood_fill pixels size sx sy targetColor replacementColor tolerance =
      if normColor replacementColor = normColor targetColor then pixels
      else (floodLoopF size (normColor targetColor) (normColor replacementColor)
        (clampTol tolerance) (floodFillFuel size (sx, sy)) pixels [(sx, sy)] ∅).getD pixels :=
    rfl
  constructor
  · intro hne x y
    obtain ⟨g', hloop, hshape, hcpos, hcneg⟩ := floodLoopF_initial pixels size
      (normColor targetColor) (normColor replacementColor) (clampTol tolerance) sx sy
    have hval : flood_fill pixels size sx sy targetColor replacementColor tolerance = g' := by
      rw [hff, if_neg hne, hloop]
      rfl
    constructor
    · intro hr
      rw [hval]
      exact hcpos (x, y) hr
    · intro hr
      rw [hval]
      exact hcneg (x, y) hr
  · intro hseedmiss
    by_cases hne : normColor replacementColor = normColor targetColor
    · rw [hff, if_pos hne]
    · obtain ⟨g', hloop, hshape, hcpos, hcneg⟩ := floodLoopF_initial pixels size
        (normColor targetColor) (normColor replacementColor) (clampTol tolerance) sx sy
      have hval : flood_fill pixels size sx sy targetColor replacementColor tolerance = g' := by
        rw [hff, if_neg hne, hloop]
        rfl
      rw [hval]
      apply grid_eq_of_cellAt hshape
      intro a b
      exact hcneg ((a : ℤ), (b : ℤ)) (fun hr => hseedmiss (reachesFrom_seed_matches hr))

/-- C1 counterexample: with `targetColor = replacementColor = "#FFFFFF"` and
a `"#FFF"` cell at the matching seed, the claim as stated requires the seed
cell to become `"#FFFFFF"`, but the early return leaves it `"#FFF"`. -/
theorem flood_fill_containment_cex :
    reachesFrom [[some ("#FFF".data)]] 1 (some ("#FFFFFF".data)) 0 (0, 0) (0, 0) ∧
    flood_fill [[some ("#FFF".data)]] 1 0 0 (some ("#FFFFFF".data)) (some ("#FFFFFF".data)) 0
      = [[some ("#FFF".data)]] ∧
    (some ("#FFF".data) : Cell) ≠ some ("#FFFFFF".data) := by
  refine ⟨⟨by decide, Relation.ReflTransGen.refl⟩, by decide, by decide⟩

/-- Witness for C1 amended: erasing (`replacement = None`) the matching seed
cell of a 1×1 grid makes it transparent; with an out-of-bounds seed nothing
changes. -/
theorem flood_fill_containment_witness :
    cellAt (flood_fill [[some ("#000000".data)]] 1 0 0 (some ("#000000".data)) none 0) 0 0
      = some none ∧
    flood_fill [[some ("#000000".data)]] 1 5 5 (some ("#000000".data)) none 0
      = [[some ("#000000".data)]] := by
  constructor
  · exact ((flood_fill_containment [[some ("#000000".data)]] 1 0 0
      (some ("#000000".data)) none 0 (by decide) (by decide)).1 (by decide) 0 0).1
      ⟨by decide, Relation.ReflTransGen.refl⟩
  · exact (flood_fill_containment [[some ("#000000".data)]] 1 5 5
      (some ("#000000".data)) none 0 (by decide) (by decide)).2 (by decide)

